import Mathlib

/-!
Verification development for the voxel-engine core of this repository
(`engine.js`): the sparse two-level voxel store (`BrickMapWorld`), its dirty
tracking and mirror synchronization (`buildAtlas`, `uploadWorld`,
`uploadDirtyBricks` of `VoxelEngine`), and the fragment-shader ray traversal
(`traceRay`, `traceBrick`, `traceShadow`).

Conventions of the embedding:
- JavaScript typed arrays (`Uint32Array`, `Uint8Array`) are total functions
  `Nat → Nat`; a store to a `Uint8Array` keeps only the low byte (`% 256`),
  exactly as the `ToUint8` conversion does.
- A JavaScript `Map` is an association list in insertion order: `mapGet` is
  `Map.get`, `mapSet` is `Map.set` (replace in place if the key is present,
  append otherwise), matching JS iteration-order semantics.
- A JavaScript `Set` of numbers is a duplicate-free list in insertion order;
  `setAdd` is `Set.add`.
- Fallible paths return `Option`: `none` models a thrown `TypeError`
  (e.g. indexing into `undefined`), which is unreachable from well-formed
  states.
- GLSL `float` arithmetic is modelled by exact rational arithmetic: `Frac`
  is an unreduced fraction (integer numerator over natural denominator) with
  structural, kernel-computable operations. This is the ideal real-number
  semantics of the shader; floating-point rounding is out of scope.
-/

/-- Pointwise update of a `Nat → Nat` array model (a single indexed store). -/
def fupd (f : Nat → Nat) (i v : Nat) : Nat → Nat :=
  fun j => if j = i then v else f j

/-- A voxel as read back by `BrickMapWorld.getVoxel`: four byte fields. -/
structure Voxel where
  r : Nat
  g : Nat
  b : Nat
  a : Nat
deriving DecidableEq, Repr

/-- Brick payload: `brickSize ** 3 * 4` RGBA bytes, as a byte-indexed array. -/
def BrickData : Type := Nat → Nat

/-- JS `Map.get` on an insertion-ordered association list. -/
def mapGet (m : List (Nat × BrickData)) (k : Nat) : Option BrickData :=
  match m with
  | [] => none
  | (k1, v1) :: rest => if k1 = k then some v1 else mapGet rest k

/-- JS `Map.set`: replace the entry in place when the key is present,
append otherwise. -/
def mapSet (m : List (Nat × BrickData)) (k : Nat) (v : BrickData) :
    List (Nat × BrickData) :=
  match m with
  | [] => [(k, v)]
  | (k1, v1) :: rest =>
      if k1 = k then (k, v) :: rest else (k1, v1) :: mapSet rest k v

/-- A freshly allocated brick: `brickSize ** 3 * 4` zero bytes (the source
allocates a zero-filled `Uint8Array`). -/
def zeroBrick : BrickData := fun _ => 0

/-- The four byte stores of `setVoxel` into a brick (`Uint8Array` stores keep
the low byte). -/
def writeRGBA (bd : BrickData) (idx r g b a : Nat) : BrickData :=
  fupd (fupd (fupd (fupd bd idx (r % 256)) (idx + 1) (g % 256)) (idx + 2) (b % 256))
    (idx + 3) (a % 256)

/-- JS `Set.add` on a duplicate-free insertion-ordered list. -/
def setAdd (s : List Nat) (x : Nat) : List Nat :=
  if x ∈ s then s else s ++ [x]

/-- State of `class BrickMapWorld` (engine.js). `voxelCount` (a render-side
statistic recomputed by `countVoxels`) and the cached `brickAtlasData` buffer
are omitted; they carry no information about the store. -/
structure World where
  coarseSize : Nat
  brickSize : Nat
  atlasSize : Nat
  coarseGrid : Nat → Nat
  bricks : List (Nat × BrickData)
  nextBrickIndex : Nat
  brickCount : Nat
  dirtyBricks : List Nat
  coarseGridDirty : Bool

namespace World

/-- Effective voxel resolution: `this.worldSize = coarseSize * brickSize`. -/
def worldSize (w : World) : Nat := w.coarseSize * w.brickSize

/-- The `BrickMapWorld` constructor. The source fixes `this.atlasSize = 96`;
the atlas edge is a parameter here so that capacity-boundary behaviour can be
exercised at a tractable scale, and `mkWorld` below instantiates it to 96. -/
def mkWorldAtlas (coarseSize brickSize atlasSize : Nat) : World where
  coarseSize := coarseSize
  brickSize := brickSize
  atlasSize := atlasSize
  coarseGrid := fun _ => 0
  bricks := []
  nextBrickIndex := 1
  brickCount := 0
  dirtyBricks := []
  coarseGridDirty := false

/-- The constructor exactly as the source runs it (`this.atlasSize = 96`). -/
def mkWorld (coarseSize brickSize : Nat) : World :=
  mkWorldAtlas coarseSize brickSize 96

/-- Source `_getCoarseIndex`: `-1` (modelled as `none`) out of range, else the
linear index `cx + cy*coarseSize + cz*coarseSize^2`. Callers only reach it
with non-negative cell coordinates, so `Nat` arguments are faithful. -/
def getCoarseIndex (w : World) (cx cy cz : Nat) : Option Nat :=
  if cx < w.coarseSize ∧ cy < w.coarseSize ∧ cz < w.coarseSize then
    some (cx + cy * w.coarseSize + cz * w.coarseSize * w.coarseSize)
  else none

/-- Source `_worldToCoarse` (floor division by the brick edge; arguments are
in-bounds, hence non-negative, at every call site). -/
def worldToCoarse (w : World) (x y z : Nat) : Nat × Nat × Nat :=
  (x / w.brickSize, y / w.brickSize, z / w.brickSize)

/-- Source `_worldToLocal` (remainder modulo the brick edge). -/
def worldToLocal (w : World) (x y z : Nat) : Nat × Nat × Nat :=
  (x % w.brickSize, y % w.brickSize, z % w.brickSize)

/-- Source `_getBrickLocalIndex`: byte offset of a voxel inside a brick. -/
def getBrickLocalIndex (w : World) (lx ly lz : Nat) : Nat :=
  (lx + ly * w.brickSize + lz * w.brickSize * w.brickSize) * 4

/-- Source `_getOrCreateBrick`. Returns `none` for an out-of-range coarse
cell (the JS `null`); otherwise the brick looked up in the map (an inner
`none` is JS `undefined`, reachable only from ill-formed states) together
with its index, and the possibly-extended world. -/
def getOrCreateBrick (w : World) (cx cy cz : Nat) :
    Option (Option BrickData × Nat) × World :=
  match w.getCoarseIndex cx cy cz with
  | none => (none, w)
  | some coarseIdx =>
      let brickIndex := w.coarseGrid coarseIdx
      if brickIndex = 0 then
        let fresh := w.nextBrickIndex
        let brickData : BrickData := zeroBrick
        let w2 : World :=
          { w with
            nextBrickIndex := w.nextBrickIndex + 1
            coarseGrid := fupd w.coarseGrid coarseIdx fresh
            coarseGridDirty := true
            bricks := w.bricks ++ [(fresh, brickData)]
            brickCount := w.brickCount + 1
            dirtyBricks := setAdd w.dirtyBricks fresh }
        (some (mapGet w2.bricks fresh, fresh), w2)
      else
        (some (mapGet w.bricks brickIndex, brickIndex), w)

/-- Source `setVoxel`. `some (false, w)` is the out-of-bounds no-op,
`some (true, _)` the successful write, `none` the crash on a missing brick
(unreachable from well-formed states). The four byte stores keep the low
byte, as `Uint8Array` stores do. -/
def setVoxel (w : World) (x y z : Int) (r g b : Nat) (a : Nat := 255) :
    Option (Bool × World) :=
  if x < 0 ∨ (w.worldSize : Int) ≤ x ∨ y < 0 ∨ (w.worldSize : Int) ≤ y ∨
      z < 0 ∨ (w.worldSize : Int) ≤ z then
    some (false, w)
  else
    let xn := x.toNat
    let yn := y.toNat
    let zn := z.toNat
    let c := w.worldToCoarse xn yn zn
    let l := w.worldToLocal xn yn zn
    match w.getOrCreateBrick c.1 c.2.1 c.2.2 with
    | (none, w2) => some (false, w2)
    | (some (obrick, index), w2) =>
        match obrick with
        | none => none
        | some brick =>
            let idx := w.getBrickLocalIndex l.1 l.2.1 l.2.2
            let brick2 := writeRGBA brick idx r g b a
            some (true,
              { w2 with
                bricks := mapSet w2.bricks index brick2
                dirtyBricks := setAdd w2.dirtyBricks index })

/-- Source `getVoxel`: `none` is the JS `null` (out of bounds, or a missing
brick behind a nonzero coarse entry); `some ⟨0,0,0,0⟩` is the empty sentinel
for an unallocated coarse cell; otherwise the stored bytes. -/
def getVoxel (w : World) (x y z : Int) : Option Voxel :=
  if x < 0 ∨ (w.worldSize : Int) ≤ x ∨ y < 0 ∨ (w.worldSize : Int) ≤ y ∨
      z < 0 ∨ (w.worldSize : Int) ≤ z then
    none
  else
    let xn := x.toNat
    let yn := y.toNat
    let zn := z.toNat
    let c := w.worldToCoarse xn yn zn
    match w.getCoarseIndex c.1 c.2.1 c.2.2 with
    | none => none
    | some coarseIdx =>
        let brickIndex := w.coarseGrid coarseIdx
        if brickIndex = 0 then some ⟨0, 0, 0, 0⟩
        else
          match mapGet w.bricks brickIndex with
          | none => none
          | some brick =>
              let l := w.worldToLocal xn yn zn
              let idx := w.getBrickLocalIndex l.1 l.2.1 l.2.2
              some ⟨brick idx, brick (idx + 1), brick (idx + 2),
                    brick (idx + 3)⟩

/-- Source `clear`. -/
def clear (w : World) : World :=
  { w with
    coarseGrid := fun _ => 0
    bricks := []
    nextBrickIndex := 1
    brickCount := 0
    dirtyBricks := []
    coarseGridDirty := true }

/-- Source `getBrickAtlasPos`: mixed-radix decomposition of the 0-based slot. -/
def getBrickAtlasPos (w : World) (brickIndex : Nat) : Nat × Nat × Nat :=
  let idx := brickIndex - 1
  (idx % w.atlasSize, idx / w.atlasSize % w.atlasSize,
   idx / (w.atlasSize * w.atlasSize))

/-- Source `getDirtyBricksAndClear`: atomically returns and clears the dirty
set and the coarse-grid-dirty flag. -/
def getDirtyBricksAndClear (w : World) : (List Nat × Bool) × World :=
  ((w.dirtyBricks, w.coarseGridDirty),
   { w with dirtyBricks := [], coarseGridDirty := false })

end World

/-- Byte address inside the atlas 3D texture (edge `atlasSize * brickSize`
texels, 4 bytes per texel) holding byte `j` of the payload of brick
`brickIndex`. This is the destination address computed by the copy loops of
`buildAtlas` and by `uploadDirtyBricks`: the slot is `brickIndex - 1`
decomposed in mixed radix `atlasSize` into `(ax, ay, az)`, the payload byte
`j` splits into channel `j % 4` and local voxel `(lx, ly, lz)` (x fastest),
and the texel is `(ax*B + lx, ay*B + ly, az*B + lz)` linearized x-fastest. -/
def atlasByteIndex (atlasSize brickSize brickIndex j : Nat) : Nat :=
  let idx := brickIndex - 1
  let ax := idx % atlasSize
  let ay := idx / atlasSize % atlasSize
  let az := idx / (atlasSize * atlasSize)
  let v := j / 4
  let lx := v % brickSize
  let ly := v / brickSize % brickSize
  let lz := v / (brickSize * brickSize)
  let avs := atlasSize * brickSize
  (ax * brickSize + lx + (ay * brickSize + ly) * avs +
    (az * brickSize + lz) * avs * avs) * 4 + j % 4

/-- The triple copy loop of `buildAtlas` (and the per-brick region write of
`uploadDirtyBricks`): byte `j` of the brick payload is stored at
`atlasByteIndex`, for `j` enumerated in the source's loop order
(`lz` outer, `ly`, `lx`, then the four channels). -/
def copyBrickToAtlas (atlasSize brickSize brickIndex : Nat) (bd : BrickData)
    (atlas : Nat → Nat) : Nat → Nat :=
  (List.range (brickSize * brickSize * brickSize * 4)).foldl
    (fun ta j => fupd ta (atlasByteIndex atlasSize brickSize brickIndex j) (bd j))
    atlas

/-- Source `buildAtlas`: a fresh zeroed atlas; every brick is copied into its
slot in map (insertion) order, skipping bricks whose index exceeds the
capacity `atlasSize ** 3` (the source logs a console warning and continues). -/
def World.buildAtlas (w : World) : Nat → Nat :=
  let maxBricks := w.atlasSize * w.atlasSize * w.atlasSize
  w.bricks.foldl
    (fun ta p =>
      if p.1 > maxBricks then ta
      else copyBrickToAtlas w.atlasSize w.brickSize p.1 p.2 ta)
    (fun _ => 0)

/-- GPU-side state of `VoxelEngine`: the primary store plus the two mirror
textures (coarse-grid texture and brick-atlas texture), as byte/texel
arrays. -/
structure Engine where
  world : World
  texCoarse : Nat → Nat
  texAtlas : Nat → Nat

namespace Engine

/-- Source `createWorld` followed by `_createTextures`: a fresh world, the
coarse texture initialized from `world.coarseGrid`, and the atlas texture
allocated empty (all zero). -/
def create (coarseSize brickSize atlasSize : Nat) : Engine where
  world := World.mkWorldAtlas coarseSize brickSize atlasSize
  texCoarse := (World.mkWorldAtlas coarseSize brickSize atlasSize).coarseGrid
  texAtlas := fun _ => 0

/-- Source `uploadWorld` (full sync): re-upload the whole coarse grid, build
and upload the whole atlas, and clear the dirty tracking. -/
def uploadWorld (e : Engine) : Engine :=
  let w := e.world
  { world := { w with dirtyBricks := [], coarseGridDirty := false }
    texCoarse := w.coarseGrid
    texAtlas := w.buildAtlas }

/-- Source `uploadDirtyBricks` (incremental sync). Drains the dirty set; if
the coarse grid was dirty the coarse texture is re-uploaded; each dirty
brick still present in the map has its `brickSize ** 3` region re-uploaded via
`texSubImage3D`. WebGL rejects a sub-image whose region exceeds the texture
extent (`GL_INVALID_VALUE`) without writing, so a region write is guarded by
the region fitting on each axis; the x and y offsets always fit, the z
offset does not once the brick index exceeds the atlas capacity. Returns the
engine plus the source's return value (number of drained bricks). -/
def uploadDirtyBricks (e : Engine) : Engine × Nat :=
  let drained := e.world.getDirtyBricksAndClear
  let dirty := drained.1.1
  let coarseDirty := drained.1.2
  let w2 := drained.2
  if dirty = [] ∧ coarseDirty = false then
    ({ e with world := w2 }, 0)
  else
    let texC := if coarseDirty then w2.coarseGrid else e.texCoarse
    let bsz := w2.brickSize
    let asz := w2.atlasSize
    let texA := dirty.foldl
      (fun ta brickIndex =>
        match mapGet w2.bricks brickIndex with
        | none => ta
        | some brickData =>
            let pos := w2.getBrickAtlasPos brickIndex
            if pos.1 * bsz + bsz ≤ asz * bsz ∧ pos.2.1 * bsz + bsz ≤ asz * bsz ∧
                pos.2.2 * bsz + bsz ≤ asz * bsz then
              copyBrickToAtlas asz bsz brickIndex brickData ta
            else ta)
      e.texAtlas
    ({ world := w2, texCoarse := texC, texAtlas := texA }, dirty.length)

end Engine

/-!
Exact-rational scalars for the fragment-shader embedding. GLSL `float`
expressions in `traceRay`/`traceBrick`/`traceShadow` use only field
operations and comparisons, so their ideal semantics is rational arithmetic.
`Frac` is an unreduced fraction: an integer numerator over a natural
denominator. All operations are structural (no gcd normalization), so every
shader run is kernel-computable; two `Frac`s denote the same rational when
they cross-multiply equally (`Frac.Eq`). Every `Frac` built by the shader
from well-formed inputs has a positive denominator.
-/

/-- An unreduced fraction `num / den`. -/
structure Frac where
  num : Int
  den : Nat
deriving DecidableEq, Repr

namespace Frac

/-- Embedding of an integer literal. -/
def ofInt (n : Int) : Frac := ⟨n, 1⟩

/-- Embedding of a natural-number literal. -/
def ofNat (n : Nat) : Frac := ⟨(n : Int), 1⟩

/-- Addition: cross-multiplied sum. -/
def add (a b : Frac) : Frac := ⟨a.num * b.den + b.num * a.den, a.den * b.den⟩

/-- Subtraction. -/
def sub (a b : Frac) : Frac := ⟨a.num * b.den - b.num * a.den, a.den * b.den⟩

/-- Multiplication. -/
def mul (a b : Frac) : Frac := ⟨a.num * b.num, a.den * b.den⟩

/-- Negation. -/
def neg (a : Frac) : Frac := ⟨-a.num, a.den⟩

/-- Division `a / b = (a.num * b.den) / (a.den * b.num)`, with the sign moved
into the numerator so the denominator stays natural. -/
def div (a b : Frac) : Frac :=
  let n := a.num * (b.den : Int)
  let m := (a.den : Int) * b.num
  if 0 ≤ m then ⟨n, m.toNat⟩ else ⟨-n, (-m).toNat⟩

/-- Absolute value. -/
def fabs (a : Frac) : Frac := ⟨|a.num|, a.den⟩

/-- Strict comparison by cross-multiplication (valid for positive
denominators, which all shader values have). -/
def blt (a b : Frac) : Bool := decide (a.num * (b.den : Int) < b.num * (a.den : Int))

/-- Non-strict comparison `b ≤ a`, i.e. `a >= b` of the source. -/
def bge (a b : Frac) : Bool := decide (b.num * (a.den : Int) ≤ a.num * (b.den : Int))

/-- GLSL `min`. -/
def fmin (a b : Frac) : Frac := if blt b a then b else a

/-- GLSL `max`. -/
def fmax (a b : Frac) : Frac := if blt a b then b else a

/-- GLSL `floor`, as an integer (floor division). -/
def ffloor (a : Frac) : Int := Int.fdiv a.num (a.den : Int)

/-- Denotational equality: same rational value. -/
def Eq (a b : Frac) : Prop := a.num * (b.den : Int) = b.num * (a.den : Int)

instance : DecidablePred fun p : Frac × Frac => Frac.Eq p.1 p.2 :=
  fun _ => inferInstanceAs (Decidable (_ = _))

instance (a b : Frac) : Decidable (Frac.Eq a b) :=
  inferInstanceAs (Decidable (_ = _))

/-- Well-formedness: positive denominator. -/
def WF (a : Frac) : Prop := 0 < a.den

instance (a : Frac) : Decidable (Frac.WF a) := inferInstanceAs (Decidable (_ < _))

end Frac

/-- A GLSL `vec3` of exact scalars. -/
structure Vec3F where
  x : Frac
  y : Frac
  z : Frac
deriving DecidableEq, Repr

/-- A GLSL `ivec3`. -/
structure IVec3 where
  x : Int
  y : Int
  z : Int
deriving DecidableEq, Repr

/-- A GLSL `vec4` texel (RGBA). -/
structure Vec4F where
  r : Frac
  g : Frac
  b : Frac
  a : Frac
deriving DecidableEq, Repr

namespace Vec3F

/-- Componentwise addition. -/
def add (u v : Vec3F) : Vec3F := ⟨u.x.add v.x, u.y.add v.y, u.z.add v.z⟩

/-- Componentwise subtraction. -/
def sub (u v : Vec3F) : Vec3F := ⟨u.x.sub v.x, u.y.sub v.y, u.z.sub v.z⟩

/-- Scaling by a scalar. -/
def scale (u : Vec3F) (t : Frac) : Vec3F := ⟨u.x.mul t, u.y.mul t, u.z.mul t⟩

/-- Division of a vector by a scalar, componentwise. -/
def divScalar (u : Vec3F) (t : Frac) : Vec3F := ⟨u.x.div t, u.y.div t, u.z.div t⟩

/-- Componentwise vector division. -/
def divComponents (u v : Vec3F) : Vec3F := ⟨u.x.div v.x, u.y.div v.y, u.z.div v.z⟩

/-- A constant vector. -/
def splat (t : Frac) : Vec3F := ⟨t, t, t⟩

/-- Conversion of an `ivec3` to a `vec3`. -/
def ofIVec (p : IVec3) : Vec3F := ⟨Frac.ofInt p.x, Frac.ofInt p.y, Frac.ofInt p.z⟩

end Vec3F

/-- The shader's direction safeguard, applied componentwise:
`abs(d) < 1e-8 ? (d >= 0.0 ? 1e-8 : -1e-8) : d`. -/
def safeComponent (d : Frac) : Frac :=
  if (d.fabs.blt ⟨1, 100000000⟩) then
    (if d.bge (Frac.ofInt 0) then ⟨1, 100000000⟩ else ⟨-1, 100000000⟩)
  else d

/-- Componentwise direction safeguard. -/
def safeVec (v : Vec3F) : Vec3F :=
  ⟨safeComponent v.x, safeComponent v.y, safeComponent v.z⟩

/-- Shader `intersectAABB` (slab method over the safeguarded direction):
returns `(tNear, tFar)`. -/
def intersectAABB (rayOrigin rayDir boxMin boxMax : Vec3F) : Frac × Frac :=
  let s := safeVec rayDir
  let tMin := (boxMin.sub rayOrigin).divComponents s
  let tMax := (boxMax.sub rayOrigin).divComponents s
  let t1 : Vec3F := ⟨tMin.x.fmin tMax.x, tMin.y.fmin tMax.y, tMin.z.fmin tMax.z⟩
  let t2 : Vec3F := ⟨tMin.x.fmax tMax.x, tMin.y.fmax tMax.y, tMin.z.fmax tMax.z⟩
  ((t1.x.fmax t1.y).fmax t1.z, (t2.x.fmin t2.y).fmin t2.z)

/-- Shader `getBrickIndex`: bounds-checked `texelFetch` into the coarse-grid
texture (zero outside the grid). -/
def getBrickIndexTex (coarseSize : Nat) (texC : Nat → Nat) (p : IVec3) : Nat :=
  if p.x < 0 ∨ p.y < 0 ∨ p.z < 0 ∨ (coarseSize : Int) ≤ p.x ∨
      (coarseSize : Int) ≤ p.y ∨ (coarseSize : Int) ≤ p.z then 0
  else texC (p.x.toNat + p.y.toNat * coarseSize + p.z.toNat * coarseSize * coarseSize)

/-- Shader `brickIndexToAtlasPos` (1-based index to mixed-radix atlas cell). -/
def brickIndexToAtlasPos (atlasSize brickIndex : Nat) : Nat × Nat × Nat :=
  let idx := brickIndex - 1
  (idx % atlasSize, idx / atlasSize % atlasSize, idx / (atlasSize * atlasSize))

/-- Shader `getVoxelFromBrick`: `vec4(0)` for brick index 0, else a
`texelFetch` into the atlas texture at the brick's cell plus the local
offset. WebGL defines an out-of-range `texelFetch` to read zero, modelled by
the explicit range guard. Texels are RGBA8, returned normalized (byte/255).
The shader fixes `BRICK_SIZE = 8`; the brick edge is a parameter here and is
instantiated with 8 wherever a whole-shader run is stated. -/
def getVoxelFromBrick (atlasSize brickSize : Nat) (texA : Nat → Nat)
    (brickIndex : Nat) (localPos : IVec3) : Vec4F :=
  if brickIndex = 0 then ⟨Frac.ofInt 0, Frac.ofInt 0, Frac.ofInt 0, Frac.ofInt 0⟩
  else
    let ap := brickIndexToAtlasPos atlasSize brickIndex
    let avs := atlasSize * brickSize
    let tx : Int := (ap.1 * brickSize : Nat) + localPos.x
    let ty : Int := (ap.2.1 * brickSize : Nat) + localPos.y
    let tz : Int := (ap.2.2 * brickSize : Nat) + localPos.z
    if tx < 0 ∨ ty < 0 ∨ tz < 0 ∨ (avs : Int) ≤ tx ∨ (avs : Int) ≤ ty ∨
        (avs : Int) ≤ tz then
      ⟨Frac.ofInt 0, Frac.ofInt 0, Frac.ofInt 0, Frac.ofInt 0⟩
    else
      let base := (tx.toNat + ty.toNat * avs + tz.toNat * avs * avs) * 4
      ⟨⟨texA base, 255⟩, ⟨texA (base + 1), 255⟩,
       ⟨texA (base + 2), 255⟩, ⟨texA (base + 3), 255⟩⟩

/-- Shader `struct HitResult`. -/
structure HitResult where
  hit : Bool
  pos : Vec3F
  normal : Vec3F
  color : Vec4F
  distance : Frac
  steps : Nat
  passedThroughWater : Bool
  waterDistance : Frac
deriving DecidableEq, Repr

/-- The `HitResult` as `traceRay` initializes it. The source sets `hit`,
`steps`, `normal`, `passedThroughWater` and `waterDistance`; GLSL leaves
`pos`, `color` and `distance` unspecified until a hit writes them, and they
are zeroed here (no modelled property reads them before a hit). -/
def HitResult.init : HitResult where
  hit := false
  pos := Vec3F.splat (Frac.ofInt 0)
  normal := Vec3F.splat (Frac.ofInt 0)
  color := ⟨Frac.ofInt 0, Frac.ofInt 0, Frac.ofInt 0, Frac.ofInt 0⟩
  distance := Frac.ofInt 0
  steps := 0
  passedThroughWater := false
  waterDistance := Frac.ofInt 0

/-- GLSL `clamp` on integers. -/
def clampI (v lo hi : Int) : Int := min (max v lo) hi

/-- The DDA side-distance initialization common to the three traversal
loops: `(vec3(step) * (vec3(cellPos) - start) + (vec3(step) * 0.5) + 0.5) *
deltaDist`, componentwise. -/
def sideDistInit (stepv : IVec3) (cellPos : IVec3) (start : Vec3F)
    (deltaDist : Vec3F) : Vec3F :=
  ⟨((((Frac.ofInt stepv.x).mul ((Frac.ofInt cellPos.x).sub start.x)).add
      ((Frac.ofInt stepv.x).mul ⟨1, 2⟩)).add ⟨1, 2⟩).mul deltaDist.x,
   ((((Frac.ofInt stepv.y).mul ((Frac.ofInt cellPos.y).sub start.y)).add
      ((Frac.ofInt stepv.y).mul ⟨1, 2⟩)).add ⟨1, 2⟩).mul deltaDist.y,
   ((((Frac.ofInt stepv.z).mul ((Frac.ofInt cellPos.z).sub start.z)).add
      ((Frac.ofInt stepv.z).mul ⟨1, 2⟩)).add ⟨1, 2⟩).mul deltaDist.z⟩

/-- The loop-invariant context of the brick-local DDA of `traceBrick`.
`lengthFn` stands for GLSL `length` (a square root, which has no exact
rational value); every property proved below holds for an arbitrary
`lengthFn`, and it is only ever applied on the degenerate water branches
(`abs(dir.y) <= 0.001`). -/
structure BrickCtx where
  atlasSize : Nat
  brickSize : Nat
  texA : Nat → Nat
  waterColor : Vec3F
  lengthFn : Vec3F → Frac
  brickIndex : Nat
  rayOrigin : Vec3F
  safeRayDir : Vec3F
  brickMin : Vec3F
  stepv : IVec3
  deltaDist : Vec3F

/-- The mutable state of the brick-local DDA loop. -/
structure BrickState where
  mapPos : IVec3
  sideDist : Vec3F
  side : Nat
  res : HitResult

/-- One iteration of the `traceBrick` loop body: the voxel check (with the
two water pass-through branches and the terminating hit branch) followed by
the DDA step. `Sum.inl` is an early `return true` with the hit written into
the result; `Sum.inr` is the stepped state for the next iteration. -/
def brickIter (c : BrickCtx) (st : BrickState) : (Bool × HitResult) ⊕ BrickState :=
  let voxel := getVoxelFromBrick c.atlasSize c.brickSize c.texA c.brickIndex st.mapPos
  let afterVoxel : (Bool × HitResult) ⊕ HitResult :=
    if (Frac.ofInt 0).blt voxel.a then
      let diff : Vec3F :=
        ⟨(voxel.r.sub c.waterColor.x).fabs, (voxel.g.sub c.waterColor.y).fabs,
         (voxel.b.sub c.waterColor.z).fabs⟩
      let isWater := diff.x.blt ⟨2, 100⟩ && diff.y.blt ⟨2, 100⟩ && diff.z.blt ⟨2, 100⟩
      if isWater && (Frac.ofInt 0).blt c.safeRayDir.y then
        -- water voxel viewed from below: record the first crossing, continue
        Sum.inr (if st.res.passedThroughWater then st.res else
          let worldPos := c.brickMin.add (Vec3F.ofIVec st.mapPos)
          let bottomY := worldPos.y
          let wd :=
            if (⟨1, 1000⟩ : Frac).blt c.safeRayDir.y.fabs then
              (bottomY.sub c.rayOrigin.y).div c.safeRayDir.y
            else c.lengthFn ((worldPos.add (Vec3F.splat ⟨1, 2⟩)).sub c.rayOrigin)
          { st.res with passedThroughWater := true, waterDistance := wd })
      else if isWater then
        -- water voxel viewed from above: record the first crossing, continue
        Sum.inr (if st.res.passedThroughWater then st.res else
          let worldPos := c.brickMin.add (Vec3F.ofIVec st.mapPos)
          let topY := worldPos.y.add (Frac.ofInt 1)
          let wd :=
            if (⟨1, 1000⟩ : Frac).blt c.safeRayDir.y.fabs then
              (topY.sub c.rayOrigin.y).div c.safeRayDir.y
            else c.lengthFn ((worldPos.add (Vec3F.splat ⟨1, 2⟩)).sub c.rayOrigin)
          { st.res with passedThroughWater := true, waterDistance := wd })
      else
        -- non-water occupied voxel: terminate with a hit
        let worldPos := c.brickMin.add (Vec3F.ofIVec st.mapPos)
        let nrm : Vec3F :=
          if st.side = 0 then
            ⟨Frac.ofInt (-c.stepv.x), Frac.ofInt 0, Frac.ofInt 0⟩
          else if st.side = 1 then
            ⟨Frac.ofInt 0, Frac.ofInt (-c.stepv.y), Frac.ofInt 0⟩
          else ⟨Frac.ofInt 0, Frac.ofInt 0, Frac.ofInt (-c.stepv.z)⟩
        let dist :=
          if st.side = 0 then
            ((worldPos.x.sub c.rayOrigin.x).add
              (((Frac.ofInt 1).sub (Frac.ofInt c.stepv.x)).div (Frac.ofInt 2))).div
              c.safeRayDir.x
          else if st.side = 1 then
            ((worldPos.y.sub c.rayOrigin.y).add
              (((Frac.ofInt 1).sub (Frac.ofInt c.stepv.y)).div (Frac.ofInt 2))).div
              c.safeRayDir.y
          else
            ((worldPos.z.sub c.rayOrigin.z).add
              (((Frac.ofInt 1).sub (Frac.ofInt c.stepv.z)).div (Frac.ofInt 2))).div
              c.safeRayDir.z
        Sum.inl (true, { st.res with
          hit := true
          color := voxel
          pos := worldPos
          normal := nrm
          distance := dist })
    else Sum.inr st.res
  match afterVoxel with
  | Sum.inl out => Sum.inl out
  | Sum.inr res2 =>
      if st.sideDist.x.blt st.sideDist.y then
        if st.sideDist.x.blt st.sideDist.z then
          Sum.inr ⟨⟨st.mapPos.x + c.stepv.x, st.mapPos.y, st.mapPos.z⟩,
            ⟨st.sideDist.x.add c.deltaDist.x, st.sideDist.y, st.sideDist.z⟩, 0, res2⟩
        else
          Sum.inr ⟨⟨st.mapPos.x, st.mapPos.y, st.mapPos.z + c.stepv.z⟩,
            ⟨st.sideDist.x, st.sideDist.y, st.sideDist.z.add c.deltaDist.z⟩, 2, res2⟩
      else
        if st.sideDist.y.blt st.sideDist.z then
          Sum.inr ⟨⟨st.mapPos.x, st.mapPos.y + c.stepv.y, st.mapPos.z⟩,
            ⟨st.sideDist.x, st.sideDist.y.add c.deltaDist.y, st.sideDist.z⟩, 1, res2⟩
        else
          Sum.inr ⟨⟨st.mapPos.x, st.mapPos.y, st.mapPos.z + c.stepv.z⟩,
            ⟨st.sideDist.x, st.sideDist.y, st.sideDist.z.add c.deltaDist.z⟩, 2, res2⟩

/-- The `for (int i = 0; i < BRICK_SIZE * 3; i++)` loop of `traceBrick`:
after each step the loop exits (returning `false`) once the position leaves
the brick. -/
def traceBrickLoop (c : BrickCtx) : Nat → BrickState → Bool × HitResult
  | 0, st => (false, st.res)
  | fuel + 1, st =>
      match brickIter c st with
      | Sum.inl out => out
      | Sum.inr st2 =>
          if st2.mapPos.x < 0 ∨ (c.brickSize : Int) ≤ st2.mapPos.x ∨
              st2.mapPos.y < 0 ∨ (c.brickSize : Int) ≤ st2.mapPos.y ∨
              st2.mapPos.z < 0 ∨ (c.brickSize : Int) ≤ st2.mapPos.z then
            (false, st2.res)
          else traceBrickLoop c fuel st2

/-- Shader `traceBrick`: slab entry into the brick box, entry-face
determination, DDA setup, then the brick-local loop with its
`BRICK_SIZE * 3` iteration budget. -/
def traceBrick (atlasSize brickSize : Nat) (texA : Nat → Nat)
    (waterColor : Vec3F) (lengthFn : Vec3F → Frac) (brickIndex : Nat)
    (rayOrigin rayDir : Vec3F) (coarsePos : IVec3) (res : HitResult) :
    Bool × HitResult :=
  let brickMin : Vec3F :=
    ⟨Frac.ofInt (coarsePos.x * brickSize), Frac.ofInt (coarsePos.y * brickSize),
     Frac.ofInt (coarsePos.z * brickSize)⟩
  let brickMax := brickMin.add (Vec3F.splat (Frac.ofNat brickSize))
  let s := safeVec rayDir
  let tMin := (brickMin.sub rayOrigin).divComponents s
  let tMax := (brickMax.sub rayOrigin).divComponents s
  let t1 : Vec3F := ⟨tMin.x.fmin tMax.x, tMin.y.fmin tMax.y, tMin.z.fmin tMax.z⟩
  let t2 : Vec3F := ⟨tMin.x.fmax tMax.x, tMin.y.fmax tMax.y, tMin.z.fmax tMax.z⟩
  let tNear := (t1.x.fmax t1.y).fmax t1.z
  let tFar := (t2.x.fmin t2.y).fmin t2.z
  if tFar.blt tNear || tFar.blt (Frac.ofInt 0) then (false, res)
  else
    let side : Nat :=
      if t1.x.bge t1.y && t1.x.bge t1.z then 0
      else if t1.y.bge t1.x && t1.y.bge t1.z then 1
      else 2
    let tStart := ((Frac.ofInt 0).fmax tNear).add ⟨1, 1000⟩
    let startPos := rayOrigin.add (s.scale tStart)
    let localStart := startPos.sub brickMin
    let mp0 : IVec3 := ⟨localStart.x.ffloor, localStart.y.ffloor, localStart.z.ffloor⟩
    let mapPos : IVec3 :=
      ⟨clampI mp0.x 0 ((brickSize : Int) - 1), clampI mp0.y 0 ((brickSize : Int) - 1),
       clampI mp0.z 0 ((brickSize : Int) - 1)⟩
    let stepv : IVec3 :=
      ⟨if s.x.bge (Frac.ofInt 0) then 1 else -1,
       if s.y.bge (Frac.ofInt 0) then 1 else -1,
       if s.z.bge (Frac.ofInt 0) then 1 else -1⟩
    let deltaDist : Vec3F :=
      ⟨((Frac.ofInt 1).div s.x).fabs, ((Frac.ofInt 1).div s.y).fabs,
       ((Frac.ofInt 1).div s.z).fabs⟩
    let sideDist := sideDistInit stepv mapPos localStart deltaDist
    traceBrickLoop
      ⟨atlasSize, brickSize, texA, waterColor, lengthFn, brickIndex, rayOrigin,
        s, brickMin, stepv, deltaDist⟩
      (brickSize * 3) ⟨mapPos, sideDist, side, res⟩

/-- The coarse-grid DDA loop of `traceRay` (`for (int i = 0; i < 512; i++)`
with the early `break` once `i` reaches `u_maxSteps`). -/
def traceRayLoop (coarseSize atlasSize brickSize : Nat) (texC texA : Nat → Nat)
    (waterColor : Vec3F) (lengthFn : Vec3F → Frac) (maxSteps : Nat)
    (origin direction : Vec3F) (stepv : IVec3) (deltaDist : Vec3F) :
    Nat → Nat → IVec3 → Vec3F → HitResult → HitResult
  | 0, _, _, _, res => res
  | fuel + 1, i, coarsePos, sideDist, res =>
      if maxSteps ≤ i then res
      else
        let res1 := { res with steps := i + 1 }
        let brickIndex := getBrickIndexTex coarseSize texC coarsePos
        let traced :=
          if 0 < brickIndex then
            traceBrick atlasSize brickSize texA waterColor lengthFn brickIndex
              origin direction coarsePos res1
          else (false, res1)
        if traced.1 then traced.2
        else
          let stepped : IVec3 × Vec3F :=
            if sideDist.x.blt sideDist.y then
              if sideDist.x.blt sideDist.z then
                (⟨coarsePos.x + stepv.x, coarsePos.y, coarsePos.z⟩,
                 ⟨sideDist.x.add deltaDist.x, sideDist.y, sideDist.z⟩)
              else
                (⟨coarsePos.x, coarsePos.y, coarsePos.z + stepv.z⟩,
                 ⟨sideDist.x, sideDist.y, sideDist.z.add deltaDist.z⟩)
            else
              if sideDist.y.blt sideDist.z then
                (⟨coarsePos.x, coarsePos.y + stepv.y, coarsePos.z⟩,
                 ⟨sideDist.x, sideDist.y.add deltaDist.y, sideDist.z⟩)
              else
                (⟨coarsePos.x, coarsePos.y, coarsePos.z + stepv.z⟩,
                 ⟨sideDist.x, sideDist.y, sideDist.z.add deltaDist.z⟩)
          if stepped.1.x < 0 ∨ (coarseSize : Int) ≤ stepped.1.x ∨
              stepped.1.y < 0 ∨ (coarseSize : Int) ≤ stepped.1.y ∨
              stepped.1.z < 0 ∨ (coarseSize : Int) ≤ stepped.1.z then
            traced.2
          else
            traceRayLoop coarseSize atlasSize brickSize texC texA waterColor
              lengthFn maxSteps origin direction stepv deltaDist fuel (i + 1)
              stepped.1 stepped.2 traced.2

/-- Shader `traceRay` (the `traceNearest` query): world-box entry, coarse
DDA setup, then the coarse loop. -/
def traceRay (coarseSize atlasSize brickSize : Nat) (texC texA : Nat → Nat)
    (waterColor : Vec3F) (lengthFn : Vec3F → Frac) (maxSteps : Nat)
    (origin direction : Vec3F) : HitResult :=
  let res := HitResult.init
  let worldSize := Frac.ofNat (coarseSize * brickSize)
  let tBox := intersectAABB origin direction (Vec3F.splat (Frac.ofInt 0))
    (Vec3F.splat worldSize)
  if tBox.2.blt tBox.1 || tBox.2.blt (Frac.ofInt 0) then res
  else
    let tStart := ((Frac.ofInt 0).fmax tBox.1).add ⟨1, 1000⟩
    let startPos := origin.add (direction.scale tStart)
    let coarseStart := startPos.divScalar (Frac.ofNat brickSize)
    let cp0 : IVec3 :=
      ⟨coarseStart.x.ffloor, coarseStart.y.ffloor, coarseStart.z.ffloor⟩
    let coarsePos : IVec3 :=
      ⟨clampI cp0.x 0 ((coarseSize : Int) - 1), clampI cp0.y 0 ((coarseSize : Int) - 1),
       clampI cp0.z 0 ((coarseSize : Int) - 1)⟩
    let s := safeVec direction
    let stepv : IVec3 :=
      ⟨if s.x.bge (Frac.ofInt 0) then 1 else -1,
       if s.y.bge (Frac.ofInt 0) then 1 else -1,
       if s.z.bge (Frac.ofInt 0) then 1 else -1⟩
    let deltaDist : Vec3F :=
      ⟨((Frac.ofNat brickSize).div s.x).fabs, ((Frac.ofNat brickSize).div s.y).fabs,
       ((Frac.ofNat brickSize).div s.z).fabs⟩
    let sideDist := sideDistInit stepv coarsePos coarseStart deltaDist
    traceRayLoop coarseSize atlasSize brickSize texC texA waterColor lengthFn
      maxSteps origin direction stepv deltaDist 512 0 coarsePos sideDist res

/-- The 64-iteration any-hit loop of `traceShadow` (bounds checked at the
top of each iteration; a brick hit returns the 0.3 attenuation factor;
falling out of the loop returns 1.0). -/
def traceShadowLoop (coarseSize atlasSize brickSize : Nat) (texC texA : Nat → Nat)
    (waterColor : Vec3F) (lengthFn : Vec3F → Frac) (origin direction : Vec3F)
    (stepv : IVec3) (deltaDist : Vec3F) :
    Nat → IVec3 → Vec3F → HitResult → Frac
  | 0, _, _, _ => Frac.ofInt 1
  | fuel + 1, coarsePos, sideDist, tmp =>
      if coarsePos.x < 0 ∨ (coarseSize : Int) ≤ coarsePos.x ∨
          coarsePos.y < 0 ∨ (coarseSize : Int) ≤ coarsePos.y ∨
          coarsePos.z < 0 ∨ (coarseSize : Int) ≤ coarsePos.z then
        Frac.ofInt 1
      else
        let brickIndex := getBrickIndexTex coarseSize texC coarsePos
        let traced :=
          if 0 < brickIndex then
            traceBrick atlasSize brickSize texA waterColor lengthFn brickIndex
              origin direction coarsePos tmp
          else (false, tmp)
        if traced.1 then ⟨3, 10⟩
        else
          let stepped : IVec3 × Vec3F :=
            if sideDist.x.blt sideDist.y then
              if sideDist.x.blt sideDist.z then
                (⟨coarsePos.x + stepv.x, coarsePos.y, coarsePos.z⟩,
                 ⟨sideDist.x.add deltaDist.x, sideDist.y, sideDist.z⟩)
              else
                (⟨coarsePos.x, coarsePos.y, coarsePos.z + stepv.z⟩,
                 ⟨sideDist.x, sideDist.y, sideDist.z.add deltaDist.z⟩)
            else
              if sideDist.y.blt sideDist.z then
                (⟨coarsePos.x, coarsePos.y + stepv.y, coarsePos.z⟩,
                 ⟨sideDist.x, sideDist.y.add deltaDist.y, sideDist.z⟩)
              else
                (⟨coarsePos.x, coarsePos.y, coarsePos.z + stepv.z⟩,
                 ⟨sideDist.x, sideDist.y, sideDist.z.add deltaDist.z⟩)
          traceShadowLoop coarseSize atlasSize brickSize texC texA waterColor
            lengthFn origin direction stepv deltaDist fuel stepped.1 stepped.2
            traced.2

/-- Shader `traceShadow`: any-hit query returning an attenuation factor of
0.3 on any hit within the 64-step budget, and 1.0 otherwise. The local
`tempResult` is declared with only `hit` initialized in the source (GLSL
leaves the rest unspecified); it starts from `HitResult.init` here. -/
def traceShadow (coarseSize atlasSize brickSize : Nat) (texC texA : Nat → Nat)
    (waterColor : Vec3F) (lengthFn : Vec3F → Frac)
    (origin direction : Vec3F) : Frac :=
  let startPos := origin.add (direction.scale ⟨1, 2⟩)
  let coarseStart := startPos.divScalar (Frac.ofNat brickSize)
  let coarsePos : IVec3 :=
    ⟨coarseStart.x.ffloor, coarseStart.y.ffloor, coarseStart.z.ffloor⟩
  let s := safeVec direction
  let stepv : IVec3 :=
    ⟨if s.x.bge (Frac.ofInt 0) then 1 else -1,
     if s.y.bge (Frac.ofInt 0) then 1 else -1,
     if s.z.bge (Frac.ofInt 0) then 1 else -1⟩
  let deltaDist : Vec3F :=
    ⟨((Frac.ofNat brickSize).div s.x).fabs, ((Frac.ofNat brickSize).div s.y).fabs,
     ((Frac.ofNat brickSize).div s.z).fabs⟩
  let sideDist := sideDistInit stepv coarsePos coarseStart deltaDist
  traceShadowLoop coarseSize atlasSize brickSize texC texA waterColor lengthFn
    origin direction stepv deltaDist 64 coarsePos sideDist HitResult.init

/-- Inverse of `atlasByteIndex`: from an atlas byte address, recover the
brick index owning it and the payload byte offset inside that brick
(meaningful on addresses of in-capacity brick regions). -/
def atlasByteDecode (atlasSize brickSize a : Nat) : Nat × Nat :=
  let c := a % 4
  let t := a / 4
  let avs := atlasSize * brickSize
  let tx := t % avs
  let ty := t / avs % avs
  let tz := t / (avs * avs)
  (tx / brickSize + ty / brickSize * atlasSize +
     tz / brickSize * atlasSize * atlasSize + 1,
   (tx % brickSize + ty % brickSize * brickSize +
     tz % brickSize * brickSize * brickSize) * 4 + c)

/-- Pointwise form of the brick-region copy: a byte address belonging to the
brick's region reads the corresponding payload byte, anything else reads the
previous atlas. Proved extensionally equal to `copyBrickToAtlas` (for an
in-capacity brick index) below, and used to evaluate atlas reads without
unfolding the copy loop. -/
def copyBrickRegionFn (atlasSize brickSize brickIndex : Nat) (bd : BrickData)
    (atlas : Nat → Nat) : Nat → Nat :=
  fun a =>
    let p := atlasByteDecode atlasSize brickSize a
    if p.1 = brickIndex ∧ p.2 < brickSize * brickSize * brickSize * 4 ∧
        atlasByteIndex atlasSize brickSize brickIndex p.2 = a then
      bd p.2
    else atlas a

/-- Well-formedness of a `BrickMapWorld` state, maintained by every reachable
state: the brick map holds exactly the 1-based indices below
`nextBrickIndex` (in allocation order), every coarse cell holds either 0 or
an allocated index, at least one index has been reserved, and the brick
count matches. -/
def World.WF (w : World) : Prop :=
  w.bricks.map Prod.fst = List.range' 1 (w.nextBrickIndex - 1) ∧
  (∀ ci, ci < w.coarseSize * w.coarseSize * w.coarseSize →
    w.coarseGrid ci < w.nextBrickIndex) ∧
  1 ≤ w.nextBrickIndex ∧
  w.brickCount = w.nextBrickIndex - 1

instance (w : World) : Decidable w.WF := by
  unfold World.WF
  infer_instance

/-- One requested voxel write. -/
structure WriteOp where
  x : Int
  y : Int
  z : Int
  r : Nat
  g : Nat
  b : Nat
  a : Nat
deriving DecidableEq, Repr

/-- Run a batch of writes; `some` only when every `setVoxel` call returned
`true` (the successful-write sequences the dirty-set claim quantifies over). -/
def World.applyWrites (w : World) : List WriteOp → Option World
  | [] => some w
  | op :: rest =>
      match w.setVoxel op.x op.y op.z op.r op.g op.b op.a with
      | some (true, w2) => w2.applyWrites rest
      | _ => none

/-- The coarse-grid cell index computed for coordinates `(x, y, z)` along the
in-bounds path of `setVoxel`/`getVoxel` (cell coordinates then linearized by
`_getCoarseIndex`). -/
def World.coarseIndexAt (w : World) (x y z : Int) : Nat :=
  x.toNat / w.brickSize + y.toNat / w.brickSize * w.coarseSize +
    z.toNat / w.brickSize * w.coarseSize * w.coarseSize

/-- The byte offset inside a brick computed for coordinates `(x, y, z)`
(`_worldToLocal` then `_getBrickLocalIndex`). -/
def World.localByteIndex (w : World) (x y z : Int) : Nat :=
  (x.toNat % w.brickSize + y.toNat % w.brickSize * w.brickSize +
    z.toNat % w.brickSize * w.brickSize * w.brickSize) * 4

/-- The coarse-grid cell index a write targets (meaningful for in-bounds
writes). -/
def World.writeCoarseIndex (w : World) (op : WriteOp) : Nat :=
  w.coarseIndexAt op.x op.y op.z

/-- The brick a write landed in, read off a (later) state: coarse-cell
bindings are stable once allocated, so reading the final state gives the id
the write touched. -/
def World.writeTargetBrick (w : World) (op : WriteOp) : Nat :=
  w.coarseGrid (w.writeCoarseIndex op)

/-- Engine states reachable from `createWorld` by voxel writes, full syncs
(`uploadWorld`) and incremental syncs (`uploadDirtyBricks`), in any
interleaving. -/
inductive Engine.Reachable (coarseSize brickSize atlasSize : Nat) : Engine → Prop where
  | init : Engine.Reachable coarseSize brickSize atlasSize
      (Engine.create coarseSize brickSize atlasSize)
  | write (e : Engine) (x y z : Int) (r g b a : Nat) (ok : Bool) (w2 : World) :
      Engine.Reachable coarseSize brickSize atlasSize e →
      e.world.setVoxel x y z r g b a = some (ok, w2) →
      Engine.Reachable coarseSize brickSize atlasSize { e with world := w2 }
  | syncFull (e : Engine) : Engine.Reachable coarseSize brickSize atlasSize e →
      Engine.Reachable coarseSize brickSize atlasSize e.uploadWorld
  | syncIncr (e : Engine) : Engine.Reachable coarseSize brickSize atlasSize e →
      Engine.Reachable coarseSize brickSize atlasSize e.uploadDirtyBricks.1

/-- The shader's water test on a fetched texel: each RGB channel within the
0.02 tolerance of the reserved water color. -/
def isWaterColor (waterColor : Vec3F) (c : Vec4F) : Bool :=
  (c.r.sub waterColor.x).fabs.blt ⟨2, 100⟩ &&
  (c.g.sub waterColor.y).fabs.blt ⟨2, 100⟩ &&
  (c.b.sub waterColor.z).fabs.blt ⟨2, 100⟩

/-- The 16-voxel-wide world (`coarseSize 2`, `brickSize 8`) of the traversal
example, after writing color `(200, 10, 10)` at `(5, 5, 5)`: used by concrete
witnesses. -/
def w16written : World :=
  (((World.mkWorld 2 8).setVoxel 5 5 5 200 10 10 255).getD
    (false, World.mkWorld 2 8)).2

/-- The same world after a second write, at `(6, 5, 5)`, landing in the same
coarse cell. -/
def w16written2 : World :=
  ((w16written.setVoxel 6 5 5 90 90 90 255).getD (false, w16written)).2

/-- Three writes touching two distinct bricks, for the dirty-set witness. -/
def c3ops : List WriteOp :=
  [⟨5, 5, 5, 200, 10, 10, 255⟩, ⟨6, 5, 5, 90, 90, 90, 255⟩,
   ⟨12, 0, 0, 1, 2, 3, 255⟩]

/-- The 16-wide world after running `c3ops`. -/
def c3world : World :=
  ((World.mkWorld 2 8).applyWrites c3ops).getD (World.mkWorld 2 8)

/-- The synchronization invariant of the engine: a well-formed world whose
dimensions match, and every brick that is not currently dirty and fits the
atlas capacity has its mirror region equal to its payload byte for byte. -/
def Engine.MirrorInv (coarseSize brickSize atlasSize : Nat) (e : Engine) : Prop :=
  e.world.WF ∧ e.world.coarseSize = coarseSize ∧ e.world.brickSize = brickSize ∧
  e.world.atlasSize = atlasSize ∧
  ∀ bi bd, mapGet e.world.bricks bi = some bd → bi ∉ e.world.dirtyBricks →
    bi ≤ atlasSize * atlasSize * atlasSize →
    ∀ j, j < brickSize * brickSize * brickSize * 4 →
      e.texAtlas (atlasByteIndex atlasSize brickSize bi j) = bd j

/-- Capacity-boundary scenario (atlas edge 1, brick edge 1, coarse edge 2):
the world after writing voxel `(0,0,0)`, filling the single atlas slot. -/
def c2cexW1 : World :=
  (((World.mkWorldAtlas 2 1 1).setVoxel 0 0 0 5 6 7 255).getD
    (false, World.mkWorldAtlas 2 1 1)).2

/-- The same world after also writing voxel `(1,0,0)`, allocating brick 2 —
one brick beyond the atlas capacity of 1. -/
def c2cexW2 : World :=
  ((c2cexW1.setVoxel 1 0 0 8 9 10 255).getD (false, c2cexW1)).2

/-- The over-capacity engine after a full sync. -/
def c2cexEngine : Engine :=
  Engine.uploadWorld { Engine.create 2 1 1 with world := c2cexW2 }

/-- Mirror-equivalence witness scenario: a 1-cell world with one write,
synchronized incrementally. -/
def c2witW : World :=
  (((World.mkWorldAtlas 1 1 1).setVoxel 0 0 0 3 4 5 255).getD
    (false, World.mkWorldAtlas 1 1 1)).2

/-- The engine for the mirror-equivalence witness, after an incremental sync. -/
def c2witEngine : Engine :=
  (Engine.uploadDirtyBricks { Engine.create 1 1 1 with world := c2witW }).1

/-- Observer on one loop-body outcome: `true` exactly when the body does not
early-return (the ray keeps stepping) and the continuing state carries
`passedThroughWater = true`. -/
def brickIterContinuesWithWater (c : BrickCtx) (st : BrickState) : Bool :=
  match brickIter c st with
  | Sum.inl _ => false
  | Sum.inr st2 => st2.res.passedThroughWater

/-- Observer: the result record carried by a loop-body outcome. -/
def brickIterRes (c : BrickCtx) (st : BrickState) : HitResult :=
  match brickIter c st with
  | Sum.inl out => out.2
  | Sum.inr st2 => st2.res

/-- Water pass-through witness scene: atlas edge 1, brick edge 2; brick 1
holds a solid voxel `(200,10,10)` at local `(0,0,0)` and a water-colored
voxel `(51,51,255)` at local `(0,1,0)`. -/
def c5texA : Nat → Nat :=
  fupd (fupd (fupd (fupd (fupd (fupd (fupd (fupd (fun _ => 0)
    0 200) 1 10) 2 10) 3 255) 8 51) 9 51) 10 255) 11 255

/-- The reserved water color of the witness scene, `(51,51,255)/255`. -/
def c5wc : Vec3F := ⟨⟨51, 255⟩, ⟨51, 255⟩, ⟨255, 255⟩⟩

/-- Witness ray origin `(0.5, 5, 0.5)`. -/
def c5origin : Vec3F := ⟨⟨1, 2⟩, Frac.ofInt 5, ⟨1, 2⟩⟩

/-- Witness ray direction `(0, -1, 0)`, straight down. -/
def c5dir : Vec3F := ⟨Frac.ofInt 0, Frac.ofInt (-1), Frac.ofInt 0⟩

/-- Witness `length` stand-in (never reached on this ray). -/
def c5len : Vec3F → Frac := fun _ => Frac.ofInt 0

/-- A brick-loop context of the witness scene. -/
def c5ctx : BrickCtx :=
  ⟨1, 2, c5texA, c5wc, c5len, 1, c5origin, safeVec c5dir,
   ⟨Frac.ofInt 0, Frac.ofInt 0, Frac.ofInt 0⟩, ⟨1, -1, 1⟩,
   ⟨⟨100000000, 1⟩, ⟨1, 1⟩, ⟨100000000, 1⟩⟩⟩

/-- A brick-loop state of the witness scene, standing on the water voxel. -/
def c5st : BrickState :=
  ⟨⟨0, 1, 0⟩, ⟨⟨50000000, 1⟩, ⟨999, 1000⟩, ⟨50000000, 1⟩⟩, 1, HitResult.init⟩

/-- A result record that has already crossed a water interface at
distance 3. -/
def c5resW : HitResult :=
  { HitResult.init with passedThroughWater := true, waterDistance := ⟨3, 1⟩ }

/-- The traversal-example engine: 16-voxel world after the single write and
a full sync. -/
def c4engine : Engine :=
  Engine.uploadWorld { Engine.create 2 8 96 with world := w16written }

/-- The payload of brick 1 of the traversal example: voxel `(5,5,5)` set to
`(200,10,10,255)` at byte offset `(5 + 5*8 + 5*64) * 4 = 1460`. -/
def c4brick : BrickData := writeRGBA zeroBrick 1460 200 10 10 255

/-- The default water-color uniform `(-1,-1,-1)` (matches nothing). -/
def c4wc : Vec3F := ⟨Frac.ofInt (-1), Frac.ofInt (-1), Frac.ofInt (-1)⟩

/-- Traversal-example ray origin `(5.5, 20, 5.5)`. -/
def c4origin : Vec3F := ⟨⟨11, 2⟩, Frac.ofInt 20, ⟨11, 2⟩⟩

/-- Traversal-example ray direction `(0, -1, 0)`. -/
def c4dir : Vec3F := ⟨Frac.ofInt 0, Frac.ofInt (-1), Frac.ofInt 0⟩

/-! Generic lemmas about the array, map and set models. -/

theorem fupd_self (f : Nat → Nat) (i v : Nat) : fupd f i v i = v := by
  simp [fupd]

theorem fupd_other (f : Nat → Nat) (i v j : Nat) (h : j ≠ i) : fupd f i v j = f j := by
  simp [fupd, h]

theorem mapGet_mapSet_self (m : List (Nat × BrickData)) (k : Nat) (v : BrickData) :
    mapGet (mapSet m k v) k = some v := by
  induction m with
  | nil => simp [mapSet, mapGet]
  | cons p rest ih =>
      obtain ⟨k1, v1⟩ := p
      by_cases h : k1 = k
      · simp [mapSet, mapGet, h]
      · simp [mapSet, mapGet, h, ih]

theorem mapGet_mapSet_ne (m : List (Nat × BrickData)) (k : Nat) (v : BrickData)
    (b : Nat) (h : b ≠ k) : mapGet (mapSet m k v) b = mapGet m b := by
  induction m with
  | nil =>
      simp only [mapSet, mapGet]
      rw [if_neg (fun he => h he.symm)]
  | cons p rest ih =>
      obtain ⟨k1, v1⟩ := p
      by_cases hk : k1 = k
      · subst hk
        simp only [mapSet, if_pos rfl, mapGet]
        rw [if_neg (fun he => h he.symm), if_neg (fun he => h he.symm)]
      · simp only [mapSet, if_neg hk, mapGet]
        by_cases hb : k1 = b
        · simp [hb]
        · simp [hb, ih]

theorem mapGet_append_ne (m : List (Nat × BrickData)) (k : Nat) (v : BrickData)
    (b : Nat) (h : b ≠ k) : mapGet (m ++ [(k, v)]) b = mapGet m b := by
  induction m with
  | nil =>
      simp only [List.nil_append, mapGet]
      rw [if_neg (fun he => h he.symm)]
  | cons p rest ih =>
      obtain ⟨k1, v1⟩ := p
      by_cases hb : k1 = b
      · simp [mapGet, hb]
      · simp [mapGet, hb, ih]

theorem mapGet_eq_none_iff (m : List (Nat × BrickData)) (k : Nat) :
    mapGet m k = none ↔ k ∉ m.map Prod.fst := by
  induction m with
  | nil => simp [mapGet]
  | cons p rest ih =>
      obtain ⟨k1, v1⟩ := p
      simp only [mapGet, List.map_cons, List.mem_cons]
      by_cases h : k1 = k
      · subst h
        simp
      · rw [if_neg h, ih]
        constructor
        · intro hk
          rintro (rfl | hm)
          · exact h rfl
          · exact hk hm
        · intro hk hm
          exact hk (Or.inr hm)

theorem mapGet_isSome_of_mem (m : List (Nat × BrickData)) (k : Nat)
    (h : k ∈ m.map Prod.fst) : ∃ bd, mapGet m k = some bd := by
  rcases he : mapGet m k with _ | bd
  · exact absurd ((mapGet_eq_none_iff m k).mp he) (by simpa using h)
  · exact ⟨bd, rfl⟩

theorem mem_keys_of_mapGet (m : List (Nat × BrickData)) (k : Nat) (bd : BrickData)
    (h : mapGet m k = some bd) : k ∈ m.map Prod.fst := by
  by_contra hk
  rw [← mapGet_eq_none_iff] at hk
  rw [h] at hk
  cases hk

theorem mapGet_append_missing (m : List (Nat × BrickData)) (k : Nat) (v : BrickData)
    (h : mapGet m k = none) : mapGet (m ++ [(k, v)]) k = some v := by
  induction m with
  | nil => simp [mapGet]
  | cons p rest ih =>
      obtain ⟨k1, v1⟩ := p
      by_cases hk : k1 = k
      · simp [mapGet, hk] at h
      · simp only [mapGet, if_neg hk] at h ⊢
        exact ih h

theorem mapSet_keys_of_mem (m : List (Nat × BrickData)) (k : Nat) (v : BrickData)
    (h : k ∈ m.map Prod.fst) : (mapSet m k v).map Prod.fst = m.map Prod.fst := by
  induction m with
  | nil => simp at h
  | cons p rest ih =>
      obtain ⟨k1, v1⟩ := p
      by_cases hk : k1 = k
      · simp [mapSet, hk]
      · simp only [List.map_cons, List.mem_cons] at h
        rcases h with h | h
        · exact absurd h.symm hk
        · simp [mapSet, hk, ih h]

theorem mem_setAdd (s : List Nat) (x a : Nat) :
    a ∈ setAdd s x ↔ a ∈ s ∨ a = x := by
  unfold setAdd
  by_cases h : x ∈ s
  · simp only [if_pos h]
    constructor
    · exact fun ha => Or.inl ha
    · rintro (ha | rfl)
      · exact ha
      · exact h
  · simp [if_neg h]

theorem nodup_setAdd (s : List Nat) (x : Nat) (h : s.Nodup) : (setAdd s x).Nodup := by
  unfold setAdd
  by_cases hm : x ∈ s
  · simpa [hm] using h
  · simp only [if_neg hm]
    exact List.Nodup.append h (List.nodup_singleton x) (by simpa using hm)

/-! Arithmetic for mixed-radix addressing. -/

theorem add_mul_mod_of_lt (r m q : Nat) (h : r < m) : (r + m * q) % m = r := by
  rw [Nat.add_mul_mod_self_left, Nat.mod_eq_of_lt h]

theorem add_mul_div_of_lt (r m q : Nat) (h : r < m) : (r + m * q) / m = q := by
  rw [Nat.add_mul_div_left _ _ (by omega : 0 < m), Nat.div_eq_of_lt h, Nat.zero_add]

theorem mixed3_lt (a b c n : Nat) (ha : a < n) (hb : b < n) (hc : c < n) :
    a + b * n + c * n * n < n * n * n := by
  nlinarith

theorem digit_lt (a l n m : Nat) (ha : a < n) (hl : l < m) : a * m + l < n * m := by
  nlinarith

theorem foldl_fupd_at (f g : Nat → Nat) (ta : Nat → Nat) (n : Nat)
    (hinj : ∀ j1 j2, j1 < n → j2 < n → f j1 = f j2 → j1 = j2) (j : Nat) (hj : j < n) :
    ((List.range n).foldl (fun a k => fupd a (f k) (g k)) ta) (f j) = g j := by
  induction n with
  | zero => omega
  | succ m ih =>
      rw [List.range_succ, List.foldl_append]
      simp only [List.foldl_cons, List.foldl_nil]
      rcases Nat.lt_or_ge j m with hlt | hge
      · have hne : f j ≠ f m := fun he => by
          have := hinj j m (by omega) (by omega) he
          omega
        simp only [fupd, if_neg hne]
        exact ih (fun a b ha hb he => hinj a b (by omega) (by omega) he) hlt
      · have hjm : j = m := by omega
        subst hjm
        simp [fupd]

theorem foldl_fupd_untouched (f g : Nat → Nat) (ta : Nat → Nat) (n : Nat)
    (a : Nat) (ha : ∀ j, j < n → a ≠ f j) :
    ((List.range n).foldl (fun acc k => fupd acc (f k) (g k)) ta) a = ta a := by
  induction n with
  | zero => simp
  | succ m ih =>
      rw [List.range_succ, List.foldl_append]
      simp only [List.foldl_cons, List.foldl_nil]
      have hne : a ≠ f m := ha m (by omega)
      simp only [fupd, if_neg hne]
      exact ih (fun j hj => ha j (by omega))

/-- Decoding inverts encoding: the atlas byte address of payload byte `j` of
brick `bi` decodes back to `(bi, j)` — mixed-radix positional uniqueness,
valid even beyond the atlas capacity (the z digit is the unbounded top
digit). -/
theorem atlasByteDecode_index (A B bi j : Nat) (hA : 0 < A) (hB : 0 < B)
    (hbi : 1 ≤ bi) (hj : j < B * B * B * 4) :
    atlasByteDecode A B (atlasByteIndex A B bi j) = (bi, j) := by
  unfold atlasByteIndex atlasByteDecode
  set idx := bi - 1 with hidx
  set ax := idx % A with hax_def
  set ay := idx / A % A with hay_def
  set az := idx / (A * A) with haz_def
  set v := j / 4 with hv_def
  set lx := v % B with hlx_def
  set ly := v / B % B with hly_def
  set lz := v / (B * B) with hlz_def
  set avs := A * B with havs
  set X := ax * B + lx with hX_def
  set Y := ay * B + ly with hY_def
  set Z := az * B + lz with hZ_def
  set T := X + Y * avs + Z * avs * avs with hT_def
  have hax : ax < A := Nat.mod_lt _ hA
  have hay : ay < A := Nat.mod_lt _ hA
  have hlx : lx < B := Nat.mod_lt _ hB
  have hly : ly < B := Nat.mod_lt _ hB
  have hX : X < avs := digit_lt ax lx A B hax hlx
  have hY : Y < avs := digit_lt ay ly A B hay hly
  have h4 : j % 4 < 4 := Nat.mod_lt _ (by omega)
  have e_mod : (T * 4 + j % 4) % 4 = j % 4 := by
    rw [show T * 4 + j % 4 = j % 4 + 4 * T by ring]
    exact add_mul_mod_of_lt _ _ _ h4
  have e_div : (T * 4 + j % 4) / 4 = T := by
    rw [show T * 4 + j % 4 = j % 4 + 4 * T by ring]
    exact add_mul_div_of_lt _ _ _ h4
  have eT : T = X + avs * (Y + avs * Z) := by rw [hT_def]; ring
  have e1 : T % avs = X := by rw [eT]; exact add_mul_mod_of_lt _ _ _ hX
  have e2 : T / avs = Y + avs * Z := by rw [eT]; exact add_mul_div_of_lt _ _ _ hX
  have e3 : T / avs % avs = Y := by rw [e2]; exact add_mul_mod_of_lt _ _ _ hY
  have e4 : T / (avs * avs) = Z := by
    rw [← Nat.div_div_eq_div_mul, e2]
    exact add_mul_div_of_lt _ _ _ hY
  have eX1 : X % B = lx := by
    rw [show X = lx + B * ax by rw [hX_def]; ring]
    exact add_mul_mod_of_lt _ _ _ hlx
  have eX2 : X / B = ax := by
    rw [show X = lx + B * ax by rw [hX_def]; ring]
    exact add_mul_div_of_lt _ _ _ hlx
  have eY1 : Y % B = ly := by
    rw [show Y = ly + B * ay by rw [hY_def]; ring]
    exact add_mul_mod_of_lt _ _ _ hly
  have eY2 : Y / B = ay := by
    rw [show Y = ly + B * ay by rw [hY_def]; ring]
    exact add_mul_div_of_lt _ _ _ hly
  have hlz : lz < B := by
    have hv : v < B * B * B := by
      rw [hv_def, Nat.div_lt_iff_lt_mul (by omega : (0 : Nat) < 4)]
      exact hj
    rw [hlz_def, Nat.div_lt_iff_lt_mul (by positivity : 0 < B * B)]
    calc v < B * B * B := hv
    _ = B * (B * B) := by ring
  have eZ1 : Z % B = lz := by
    rw [show Z = lz + B * az by rw [hZ_def]; ring]
    exact add_mul_mod_of_lt _ _ _ hlz
  have eZ2 : Z / B = az := by
    rw [show Z = lz + B * az by rw [hZ_def]; ring]
    exact add_mul_div_of_lt _ _ _ hlz
  have hidx_id : ax + ay * A + az * A * A = idx := by
    have q1 : idx % A + A * (idx / A) = idx := Nat.mod_add_div idx A
    have q2 : idx / A % A + A * (idx / A / A) = idx / A := Nat.mod_add_div (idx / A) A
    have q3 : idx / A / A = idx / (A * A) := Nat.div_div_eq_div_mul idx A A
    calc ax + ay * A + az * A * A
        = idx % A + A * (idx / A % A + A * (idx / (A * A))) := by
          rw [hax_def, hay_def, haz_def]; ring
    _ = idx % A + A * (idx / A) := by rw [← q3, q2]
    _ = idx := q1
  have hv_id : lx + ly * B + lz * B * B = v := by
    have q1 : v % B + B * (v / B) = v := Nat.mod_add_div v B
    have q2 : v / B % B + B * (v / B / B) = v / B := Nat.mod_add_div (v / B) B
    have q3 : v / B / B = v / (B * B) := Nat.div_div_eq_div_mul v B B
    calc lx + ly * B + lz * B * B
        = v % B + B * (v / B % B + B * (v / (B * B))) := by
          rw [hlx_def, hly_def, hlz_def]; ring
    _ = v % B + B * (v / B) := by rw [← q3, q2]
    _ = v := q1
  have hj_id : v * 4 + j % 4 = j := by
    have := Nat.div_add_mod j 4
    omega
  have e3b : (Y + avs * Z) % avs = Y := add_mul_mod_of_lt _ _ _ hY
  simp only [e_mod, e_div, e1, e2, e3, e4, e3b, eX1, eX2, eY1, eY2, eZ1, eZ2]
  refine Prod.ext ?_ ?_
  · show ax + ay * A + az * A * A + 1 = bi
    rw [hidx_id]
    omega
  · show (lx + ly * B + lz * B * B) * 4 + j % 4 = j
    rw [hv_id]
    exact hj_id

/-- Atlas addresses of distinct in-range payload bytes or distinct bricks are
distinct. -/
theorem atlasByteIndex_inj (A B b1 b2 j1 j2 : Nat) (hA : 0 < A) (hB : 0 < B)
    (hb1 : 1 ≤ b1) (hb2 : 1 ≤ b2) (hj1 : j1 < B * B * B * 4)
    (hj2 : j2 < B * B * B * 4)
    (he : atlasByteIndex A B b1 j1 = atlasByteIndex A B b2 j2) :
    b1 = b2 ∧ j1 = j2 := by
  have d1 := atlasByteDecode_index A B b1 j1 hA hB hb1 hj1
  have d2 := atlasByteDecode_index A B b2 j2 hA hB hb2 hj2
  rw [he, d2] at d1
  exact ⟨(Prod.mk.injEq _ _ _ _ ▸ d1).1.symm, (Prod.mk.injEq _ _ _ _ ▸ d1).2.symm⟩

/-- An in-capacity brick's region lies inside the atlas byte array. -/
theorem atlasByteIndex_lt (A B bi j : Nat) (hA : 0 < A) (hB : 0 < B)
    (hcap : bi - 1 < A * A * A) (hj : j < B * B * B * 4) :
    atlasByteIndex A B bi j < A * B * (A * B) * (A * B) * 4 := by
  unfold atlasByteIndex
  set idx := bi - 1
  have hax : idx % A < A := Nat.mod_lt _ hA
  have hay : idx / A % A < A := Nat.mod_lt _ hA
  have haz : idx / (A * A) < A := by
    rw [Nat.div_lt_iff_lt_mul (by positivity : 0 < A * A)]
    calc idx < A * A * A := hcap
    _ = A * (A * A) := by ring
  have hlx : j / 4 % B < B := Nat.mod_lt _ hB
  have hly : j / 4 / B % B < B := Nat.mod_lt _ hB
  have hlz : j / 4 / (B * B) < B := by
    have hv : j / 4 < B * B * B := by
      rw [Nat.div_lt_iff_lt_mul (by omega : (0 : Nat) < 4)]
      exact hj
    rw [Nat.div_lt_iff_lt_mul (by positivity : 0 < B * B)]
    calc j / 4 < B * B * B := hv
    _ = B * (B * B) := by ring
  have hX := digit_lt _ _ A B hax hlx
  have hY := digit_lt _ _ A B hay hly
  have hZ := digit_lt _ _ A B haz hlz
  have hT := mixed3_lt _ _ _ (A * B) hX hY hZ
  have h4 : j % 4 < 4 := Nat.mod_lt _ (by omega)
  simp only []
  omega

/-- A beyond-capacity brick's region lies entirely outside the atlas byte
array (its z digit overflows the atlas depth). -/
theorem atlasByteIndex_ge (A B bi j : Nat) (hover : A * A * A < bi) :
    A * B * (A * B) * (A * B) * 4 ≤ atlasByteIndex A B bi j := by
  rcases Nat.eq_zero_or_pos A with hA | hA
  · subst hA
    simp
  unfold atlasByteIndex
  set idx := bi - 1
  have haz : A ≤ idx / (A * A) := by
    rw [Nat.le_div_iff_mul_le (by positivity : 0 < A * A)]
    have : A * (A * A) = A * A * A := by ring
    omega
  have hZ : A * B ≤ idx / (A * A) * B + j / 4 / (B * B) := by
    calc A * B ≤ idx / (A * A) * B := Nat.mul_le_mul_right B haz
    _ ≤ _ := Nat.le_add_right _ _
  simp only []
  nlinarith [Nat.zero_le (idx % A * B + j / 4 % B),
    Nat.zero_le (idx / A % A * B + j / 4 / B % B), Nat.zero_le (j % 4),
    Nat.zero_le (A * B)]

/-- Adding an element twice to a set is the same as adding it once. -/
theorem setAdd_idem (s : List Nat) (x : Nat) : setAdd (setAdd s x) x = setAdd s x := by
  by_cases h : x ∈ s
  · simp [setAdd, h]
  · simp [setAdd, h]

/-- Setting a key that was absent from the map after appending it replaces
the appended entry. -/
theorem mapSet_append_missing (m : List (Nat × BrickData)) (k : Nat)
    (v0 v : BrickData) (h : mapGet m k = none) :
    mapSet (m ++ [(k, v0)]) k v = m ++ [(k, v)] := by
  induction m with
  | nil => simp [mapSet]
  | cons p rest ih =>
      obtain ⟨k1, v1⟩ := p
      by_cases hk : k1 = k
      · simp [mapGet, hk] at h
      · simp only [mapGet, if_neg hk] at h
        simp [mapSet, hk, ih h]

/-- The copy loop is, pointwise, the region-update function: the payload for
region addresses, the previous atlas elsewhere. -/
theorem copyBrickToAtlas_eq (A B bi : Nat) (bd : BrickData) (atlas : Nat → Nat)
    (hA : 0 < A) (hB : 0 < B) (hbi : 1 ≤ bi) :
    copyBrickToAtlas A B bi bd atlas = copyBrickRegionFn A B bi bd atlas := by
  funext a
  have hinj : ∀ j1 j2, j1 < B * B * B * 4 → j2 < B * B * B * 4 →
      atlasByteIndex A B bi j1 = atlasByteIndex A B bi j2 → j1 = j2 :=
    fun j1 j2 h1 h2 he => (atlasByteIndex_inj A B bi bi j1 j2 hA hB hbi hbi h1 h2 he).2
  unfold copyBrickToAtlas copyBrickRegionFn
  by_cases hmem : ∃ j, j < B * B * B * 4 ∧ atlasByteIndex A B bi j = a
  · obtain ⟨j, hj, he⟩ := hmem
    subst he
    rw [foldl_fupd_at _ _ _ _ hinj j hj]
    rw [atlasByteDecode_index A B bi j hA hB hbi hj]
    rw [if_pos ⟨rfl, hj, rfl⟩]
  · rw [foldl_fupd_untouched _ _ _ _ _
      (fun j hjn he => hmem ⟨j, hjn, he.symm⟩)]
    rcases h : atlasByteDecode A B a with ⟨p1, p2⟩
    by_cases hg : p1 = bi ∧ p2 < B * B * B * 4 ∧ atlasByteIndex A B bi p2 = a
    · exact absurd ⟨p2, hg.2.1, hg.2.2⟩ hmem
    · simp only [h]
      rw [if_neg hg]

/-- The brick-skipping atlas fold reads back each in-capacity brick present
in the list (keys distinct, 1-based), regardless of the other entries. -/
theorem atlasFold_reads (A B : Nat) (hA : 0 < A) (hB : 0 < B)
    (l : List (Nat × BrickData)) (ta : Nat → Nat)
    (hkeys : (l.map Prod.fst).Nodup) (hpos : ∀ p ∈ l, 1 ≤ p.1)
    (bi : Nat) (bd : BrickData) (hmem : (bi, bd) ∈ l) (hcap : bi ≤ A * A * A)
    (j : Nat) (hj : j < B * B * B * 4) :
    (l.foldl (fun acc p =>
        if p.1 > A * A * A then acc else copyBrickToAtlas A B p.1 p.2 acc) ta)
      (atlasByteIndex A B bi j) = bd j := by
  induction l using List.reverseRecOn generalizing ta with
  | nil => simp at hmem
  | append_singleton front p ih =>
      obtain ⟨bi2, bd2⟩ := p
      rw [List.foldl_append]
      simp only [List.foldl_cons, List.foldl_nil]
      have hbi1 : 1 ≤ bi := hpos (bi, bd) hmem
      have hkeys2 : (front.map Prod.fst ++ [bi2]).Nodup := by simpa using hkeys
      rcases List.nodup_append.mp hkeys2 with ⟨hfront_keys, -, hdisj⟩
      rcases List.mem_append.mp hmem with hfront | hlast
      · have hne : bi ≠ bi2 := by
          intro he
          subst he
          have h1 : bi ∈ front.map Prod.fst :=
            List.mem_map.mpr ⟨(bi, bd), hfront, rfl⟩
          exact hdisj h1 (by simp)
        have hfront_pos : ∀ q ∈ front, 1 ≤ q.1 :=
          fun q hq => hpos q (List.mem_append.mpr (Or.inl hq))
        by_cases hskip : bi2 > A * A * A
        · rw [if_pos hskip]
          exact ih ta hfront_keys hfront_pos hfront
        · rw [if_neg hskip]
          have hbi2 : 1 ≤ bi2 := hpos (bi2, bd2) (by simp)
          rw [copyBrickToAtlas_eq A B bi2 bd2 _ hA hB hbi2]
          unfold copyBrickRegionFn
          rw [atlasByteDecode_index A B bi j hA hB hbi1 hj]
          rw [if_neg (by
            rintro ⟨h1, -, -⟩
            exact hne h1)]
          exact ih ta hfront_keys hfront_pos hfront
      · have hp : bi2 = bi ∧ bd2 = bd := by
          have he := List.mem_singleton.mp hlast
          exact ⟨(congrArg Prod.fst he).symm, (congrArg Prod.snd he).symm⟩
        obtain ⟨rfl, rfl⟩ := hp
        rw [if_neg (Nat.not_lt.mpr hcap)]
        rw [copyBrickToAtlas_eq A B bi2 bd2 _ hA hB hbi1]
        unfold copyBrickRegionFn
        rw [atlasByteDecode_index A B bi2 j hA hB hbi1 hj]
        rw [if_pos ⟨rfl, hj, rfl⟩]

/-- The atlas fold never writes at or beyond the atlas byte extent, for any
list of bricks (the guard skips every brick whose region would overflow). -/
theorem atlasFold_high_zero (A B : Nat) (hA : 0 < A) (hB : 0 < B)
    (l : List (Nat × BrickData)) (ta : Nat → Nat) (a : Nat)
    (ha : A * B * (A * B) * (A * B) * 4 ≤ a) (hta : ta a = 0) :
    (l.foldl (fun acc p =>
        if p.1 > A * A * A then acc else copyBrickToAtlas A B p.1 p.2 acc) ta)
      a = 0 := by
  induction l generalizing ta with
  | nil => exact hta
  | cons p rest ih =>
      obtain ⟨bi, bd⟩ := p
      simp only [List.foldl_cons]
      by_cases hskip : bi > A * A * A
      · rw [if_pos hskip]
        exact ih ta hta
      · rw [if_neg hskip]
        refine ih _ ?_
        unfold copyBrickToAtlas
        rw [foldl_fupd_untouched]
        · exact hta
        · intro j hj he
          have hlt : atlasByteIndex A B bi j < A * B * (A * B) * (A * B) * 4 :=
            atlasByteIndex_lt A B bi j hA hB (by
              have : 0 < A * A * A := by positivity
              omega) hj
          omega


/-! Characterization of the store operations on in-bounds coordinates. -/

theorem worldSize_parts_pos (w : World) (h : 0 < w.worldSize) :
    0 < w.coarseSize ∧ 0 < w.brickSize := by
  unfold World.worldSize at h
  constructor
  · exact Nat.pos_of_ne_zero fun h0 => by simp [h0] at h
  · exact Nat.pos_of_ne_zero fun h0 => by simp [h0] at h

theorem inbounds_facts (w : World) (x y z : Int)
    (hx0 : 0 ≤ x) (hx : x < (w.worldSize : Int)) (hy0 : 0 ≤ y)
    (hy : y < (w.worldSize : Int)) (hz0 : 0 ≤ z) (hz : z < (w.worldSize : Int)) :
    x.toNat / w.brickSize < w.coarseSize ∧ y.toNat / w.brickSize < w.coarseSize ∧
      z.toNat / w.brickSize < w.coarseSize ∧
      w.coarseIndexAt x y z < w.coarseSize * w.coarseSize * w.coarseSize := by
  have hws : 0 < w.worldSize := by omega
  obtain ⟨hcs, hB⟩ := worldSize_parts_pos w hws
  have hxn : x.toNat < w.worldSize := by omega
  have hyn : y.toNat < w.worldSize := by omega
  have hzn : z.toNat < w.worldSize := by omega
  have hcx : x.toNat / w.brickSize < w.coarseSize := by
    rw [Nat.div_lt_iff_lt_mul hB]
    exact hxn
  have hcy : y.toNat / w.brickSize < w.coarseSize := by
    rw [Nat.div_lt_iff_lt_mul hB]
    exact hyn
  have hcz : z.toNat / w.brickSize < w.coarseSize := by
    rw [Nat.div_lt_iff_lt_mul hB]
    exact hzn
  exact ⟨hcx, hcy, hcz, mixed3_lt _ _ _ _ hcx hcy hcz⟩

theorem localByteIndex_bound (w : World) (x y z : Int) (hB : 0 < w.brickSize) :
    w.localByteIndex x y z + 3 <
      w.brickSize * w.brickSize * w.brickSize * 4 := by
  unfold World.localByteIndex
  have h1 : x.toNat % w.brickSize < w.brickSize := Nat.mod_lt _ hB
  have h2 : y.toNat % w.brickSize < w.brickSize := Nat.mod_lt _ hB
  have h3 : z.toNat % w.brickSize < w.brickSize := Nat.mod_lt _ hB
  have := mixed3_lt _ _ _ _ h1 h2 h3
  omega

theorem getOrCreateBrick_oob (w : World) (cx cy cz : Nat)
    (h : ¬(cx < w.coarseSize ∧ cy < w.coarseSize ∧ cz < w.coarseSize)) :
    w.getOrCreateBrick cx cy cz = (none, w) := by
  unfold World.getOrCreateBrick World.getCoarseIndex
  rw [if_neg h]

theorem getOrCreateBrick_fresh (w : World) (cx cy cz : Nat)
    (hcx : cx < w.coarseSize) (hcy : cy < w.coarseSize) (hcz : cz < w.coarseSize)
    (hci : w.coarseGrid
      (cx + cy * w.coarseSize + cz * w.coarseSize * w.coarseSize) = 0) :
    w.getOrCreateBrick cx cy cz =
      (some (mapGet (w.bricks ++ [(w.nextBrickIndex, zeroBrick)]) w.nextBrickIndex,
         w.nextBrickIndex),
       { w with
         nextBrickIndex := w.nextBrickIndex + 1
         coarseGrid := fupd w.coarseGrid
           (cx + cy * w.coarseSize + cz * w.coarseSize * w.coarseSize)
           w.nextBrickIndex
         coarseGridDirty := true
         bricks := w.bricks ++ [(w.nextBrickIndex, zeroBrick)]
         brickCount := w.brickCount + 1
         dirtyBricks := setAdd w.dirtyBricks w.nextBrickIndex }) := by
  unfold World.getOrCreateBrick World.getCoarseIndex
  rw [if_pos ⟨hcx, hcy, hcz⟩]
  simp only [hci]
  simp

theorem getOrCreateBrick_existing (w : World) (cx cy cz : Nat)
    (hcx : cx < w.coarseSize) (hcy : cy < w.coarseSize) (hcz : cz < w.coarseSize)
    (bi : Nat)
    (hci : w.coarseGrid
      (cx + cy * w.coarseSize + cz * w.coarseSize * w.coarseSize) = bi)
    (hbi : bi ≠ 0) :
    w.getOrCreateBrick cx cy cz = (some (mapGet w.bricks bi, bi), w) := by
  unfold World.getOrCreateBrick World.getCoarseIndex
  rw [if_pos ⟨hcx, hcy, hcz⟩]
  simp only [hci, if_neg hbi]

theorem setVoxel_oob (w : World) (x y z : Int) (r g b a : Nat)
    (h : x < 0 ∨ (w.worldSize : Int) ≤ x ∨ y < 0 ∨ (w.worldSize : Int) ≤ y ∨
      z < 0 ∨ (w.worldSize : Int) ≤ z) :
    w.setVoxel x y z r g b a = some (false, w) := by
  unfold World.setVoxel
  rw [if_pos h]

theorem getVoxel_oob (w : World) (x y z : Int)
    (h : x < 0 ∨ (w.worldSize : Int) ≤ x ∨ y < 0 ∨ (w.worldSize : Int) ≤ y ∨
      z < 0 ∨ (w.worldSize : Int) ≤ z) :
    w.getVoxel x y z = none := by
  unfold World.getVoxel
  rw [if_pos h]

theorem setVoxel_fresh (w : World) (x y z : Int) (r g b a : Nat)
    (hx0 : 0 ≤ x) (hx : x < (w.worldSize : Int)) (hy0 : 0 ≤ y)
    (hy : y < (w.worldSize : Int)) (hz0 : 0 ≤ z) (hz : z < (w.worldSize : Int))
    (hci : w.coarseGrid (w.coarseIndexAt x y z) = 0)
    (hmiss : mapGet w.bricks w.nextBrickIndex = none) :
    w.setVoxel x y z r g b a = some (true, { w with
      nextBrickIndex := w.nextBrickIndex + 1
      coarseGrid := fupd w.coarseGrid (w.coarseIndexAt x y z) w.nextBrickIndex
      coarseGridDirty := true
      bricks := w.bricks ++ [(w.nextBrickIndex,
        writeRGBA zeroBrick (w.localByteIndex x y z) r g b a)]
      brickCount := w.brickCount + 1
      dirtyBricks := setAdd w.dirtyBricks w.nextBrickIndex }) := by
  obtain ⟨hcx, hcy, hcz, -⟩ := inbounds_facts w x y z hx0 hx hy0 hy hz0 hz
  unfold World.setVoxel
  rw [if_neg (by omega)]
  simp only [World.worldToCoarse, World.worldToLocal, World.getBrickLocalIndex]
  rw [getOrCreateBrick_fresh w _ _ _ hcx hcy hcz (by exact hci)]
  simp only [mapGet_append_missing w.bricks w.nextBrickIndex _ hmiss]
  rw [mapSet_append_missing w.bricks w.nextBrickIndex _ _ hmiss]
  rw [setAdd_idem]
  rfl

theorem setVoxel_existing (w : World) (x y z : Int) (r g b a : Nat)
    (hx0 : 0 ≤ x) (hx : x < (w.worldSize : Int)) (hy0 : 0 ≤ y)
    (hy : y < (w.worldSize : Int)) (hz0 : 0 ≤ z) (hz : z < (w.worldSize : Int))
    (bi : Nat) (bd : BrickData)
    (hci : w.coarseGrid (w.coarseIndexAt x y z) = bi) (hbi : bi ≠ 0)
    (hbd : mapGet w.bricks bi = some bd) :
    w.setVoxel x y z r g b a = some (true, { w with
      bricks := mapSet w.bricks bi
        (writeRGBA bd (w.localByteIndex x y z) r g b a)
      dirtyBricks := setAdd w.dirtyBricks bi }) := by
  obtain ⟨hcx, hcy, hcz, -⟩ := inbounds_facts w x y z hx0 hx hy0 hy hz0 hz
  unfold World.setVoxel
  rw [if_neg (by omega)]
  simp only [World.worldToCoarse, World.worldToLocal, World.getBrickLocalIndex]
  rw [getOrCreateBrick_existing w _ _ _ hcx hcy hcz bi (by exact hci) hbi]
  simp only [hbd]
  rfl

theorem setVoxel_missing_brick (w : World) (x y z : Int) (r g b a : Nat)
    (hx0 : 0 ≤ x) (hx : x < (w.worldSize : Int)) (hy0 : 0 ≤ y)
    (hy : y < (w.worldSize : Int)) (hz0 : 0 ≤ z) (hz : z < (w.worldSize : Int))
    (bi : Nat)
    (hci : w.coarseGrid (w.coarseIndexAt x y z) = bi) (hbi : bi ≠ 0)
    (hbd : mapGet w.bricks bi = none) :
    w.setVoxel x y z r g b a = none := by
  obtain ⟨hcx, hcy, hcz, -⟩ := inbounds_facts w x y z hx0 hx hy0 hy hz0 hz
  unfold World.setVoxel
  rw [if_neg (by omega)]
  simp only [World.worldToCoarse, World.worldToLocal, World.getBrickLocalIndex]
  rw [getOrCreateBrick_existing w _ _ _ hcx hcy hcz bi (by exact hci) hbi]
  simp only [hbd]

theorem getVoxel_inbounds (w : World) (x y z : Int)
    (hx0 : 0 ≤ x) (hx : x < (w.worldSize : Int)) (hy0 : 0 ≤ y)
    (hy : y < (w.worldSize : Int)) (hz0 : 0 ≤ z) (hz : z < (w.worldSize : Int)) :
    w.getVoxel x y z =
      (if w.coarseGrid (w.coarseIndexAt x y z) = 0 then some ⟨0, 0, 0, 0⟩
       else
         match mapGet w.bricks (w.coarseGrid (w.coarseIndexAt x y z)) with
         | none => none
         | some brick => some ⟨brick (w.localByteIndex x y z),
             brick (w.localByteIndex x y z + 1), brick (w.localByteIndex x y z + 2),
             brick (w.localByteIndex x y z + 3)⟩) := by
  obtain ⟨hcx, hcy, hcz, -⟩ := inbounds_facts w x y z hx0 hx hy0 hy hz0 hz
  unfold World.getVoxel World.getCoarseIndex
  rw [if_neg (by omega)]
  simp only [World.worldToCoarse, World.worldToLocal, World.getBrickLocalIndex]
  rw [if_pos ⟨hcx, hcy, hcz⟩]
  rfl

/-! Well-formedness: establishment and preservation. -/

theorem wf_mkWorldAtlas (cs bs as : Nat) : (World.mkWorldAtlas cs bs as).WF := by
  refine ⟨rfl, fun ci _ => Nat.zero_lt_one, Nat.le_refl 1, rfl⟩

theorem wf_mapGet_iff (w : World) (hwf : w.WF) (k : Nat) :
    (∃ bd, mapGet w.bricks k = some bd) ↔ 1 ≤ k ∧ k < w.nextBrickIndex := by
  constructor
  · rintro ⟨bd, hbd⟩
    have hmem := mem_keys_of_mapGet _ _ _ hbd
    rw [hwf.1, List.mem_range'_1] at hmem
    omega
  · rintro ⟨h1, h2⟩
    refine mapGet_isSome_of_mem _ _ ?_
    rw [hwf.1, List.mem_range'_1]
    omega

theorem wf_mapGet_next_none (w : World) (hwf : w.WF) :
    mapGet w.bricks w.nextBrickIndex = none := by
  rw [mapGet_eq_none_iff, hwf.1, List.mem_range'_1]
  omega

theorem wf_keys_pos (w : World) (hwf : w.WF) (p : Nat × BrickData)
    (hp : p ∈ w.bricks) : 1 ≤ p.1 := by
  have hmem : p.1 ∈ w.bricks.map Prod.fst := List.mem_map.mpr ⟨p, hp, rfl⟩
  rw [hwf.1, List.mem_range'_1] at hmem
  omega

theorem wf_keys_nodup (w : World) (hwf : w.WF) :
    (w.bricks.map Prod.fst).Nodup := by
  rw [hwf.1]
  exact List.nodup_range' _ _

theorem wf_setVoxel (w : World) (x y z : Int) (r g b a : Nat) (ok : Bool)
    (w2 : World) (hwf : w.WF) (h : w.setVoxel x y z r g b a = some (ok, w2)) :
    w2.WF := by
  by_cases hoob : x < 0 ∨ (w.worldSize : Int) ≤ x ∨ y < 0 ∨ (w.worldSize : Int) ≤ y ∨
      z < 0 ∨ (w.worldSize : Int) ≤ z
  · rw [setVoxel_oob w x y z r g b a hoob] at h
    obtain ⟨-, rfl⟩ := Prod.mk.injEq _ _ _ _ ▸ Option.some.injEq _ _ ▸ h
    exact hwf
  · push_neg at hoob
    obtain ⟨hx0, hx, hy0, hy, hz0, hz⟩ := hoob
    obtain ⟨hcx, hcy, hcz, hcilt⟩ := inbounds_facts w x y z hx0 (by omega) hy0
      (by omega) hz0 (by omega)
    obtain ⟨hkeys, hcoarse, hnext, hcount⟩ := hwf
    by_cases hci0 : w.coarseGrid (w.coarseIndexAt x y z) = 0
    · rw [setVoxel_fresh w x y z r g b a hx0 (by omega) hy0 (by omega) hz0
        (by omega) hci0 (wf_mapGet_next_none w ⟨hkeys, hcoarse, hnext, hcount⟩)] at h
      obtain ⟨-, rfl⟩ := Prod.mk.injEq _ _ _ _ ▸ Option.some.injEq _ _ ▸ h
      refine ⟨?_, ?_, by show 1 ≤ w.nextBrickIndex + 1; omega,
        by show w.brickCount + 1 = w.nextBrickIndex + 1 - 1; omega⟩
      · show (w.bricks ++ [(w.nextBrickIndex, _)]).map Prod.fst =
          List.range' 1 (w.nextBrickIndex + 1 - 1)
        rw [List.map_append, hkeys]
        have he1 : w.nextBrickIndex + 1 - 1 = (w.nextBrickIndex - 1) + 1 := by omega
        rw [he1, List.range'_1_concat]
        have he2 : 1 + (w.nextBrickIndex - 1) = w.nextBrickIndex := by omega
        rw [he2]
        rfl
      · intro ci hci
        show fupd w.coarseGrid (w.coarseIndexAt x y z) w.nextBrickIndex ci <
          w.nextBrickIndex + 1
        by_cases he : ci = w.coarseIndexAt x y z
        · rw [he, fupd_self]
          omega
        · rw [fupd_other _ _ _ _ he]
          have := hcoarse ci (by simpa using hci)
          omega
    · obtain ⟨bd, hbd⟩ := (wf_mapGet_iff w ⟨hkeys, hcoarse, hnext, hcount⟩ _).mpr
        ⟨Nat.one_le_iff_ne_zero.mpr hci0, hcoarse _ hcilt⟩
      rw [setVoxel_existing w x y z r g b a hx0 (by omega) hy0 (by omega) hz0
        (by omega) _ bd rfl hci0 hbd] at h
      obtain ⟨-, rfl⟩ := Prod.mk.injEq _ _ _ _ ▸ Option.some.injEq _ _ ▸ h
      refine ⟨?_, hcoarse, hnext, hcount⟩
      show (mapSet w.bricks _ _).map Prod.fst = _
      rw [mapSet_keys_of_mem _ _ _ (mem_keys_of_mapGet _ _ _ hbd)]
      exact hkeys

theorem setVoxel_step (w : World) (x y z : Int) (r g b a : Nat) (w2 : World)
    (hwf : w.WF) (h : w.setVoxel x y z r g b a = some (true, w2)) :
    w2.coarseSize = w.coarseSize ∧ w2.brickSize = w.brickSize ∧
    w2.atlasSize = w.atlasSize ∧ w.nextBrickIndex ≤ w2.nextBrickIndex ∧
    w2.coarseGrid (w.coarseIndexAt x y z) ≠ 0 ∧
    (∀ ci, w.coarseGrid ci ≠ 0 → w2.coarseGrid ci = w.coarseGrid ci) ∧
    (∀ q, q ∈ w2.dirtyBricks ↔ q ∈ w.dirtyBricks ∨
      q = w2.coarseGrid (w.coarseIndexAt x y z)) ∧
    (∀ q, q ≠ w2.coarseGrid (w.coarseIndexAt x y z) →
      mapGet w2.bricks q = mapGet w.bricks q) ∧
    (w.dirtyBricks.Nodup → w2.dirtyBricks.Nodup) ∧
    w2.coarseGridDirty = (w.coarseGridDirty || decide
      (w.coarseGrid (w.coarseIndexAt x y z) = 0)) := by
  by_cases hoob : x < 0 ∨ (w.worldSize : Int) ≤ x ∨ y < 0 ∨ (w.worldSize : Int) ≤ y ∨
      z < 0 ∨ (w.worldSize : Int) ≤ z
  · rw [setVoxel_oob w x y z r g b a hoob] at h
    exact absurd (congrArg (fun o => Option.map Prod.fst o) h) (by simp)
  · push_neg at hoob
    obtain ⟨hx0, hx, hy0, hy, hz0, hz⟩ := hoob
    obtain ⟨hcx, hcy, hcz, hcilt⟩ := inbounds_facts w x y z hx0 (by omega) hy0
      (by omega) hz0 (by omega)
    by_cases hci0 : w.coarseGrid (w.coarseIndexAt x y z) = 0
    · rw [setVoxel_fresh w x y z r g b a hx0 (by omega) hy0 (by omega) hz0
        (by omega) hci0 (wf_mapGet_next_none w hwf)] at h
      obtain ⟨-, rfl⟩ := Prod.mk.injEq _ _ _ _ ▸ Option.some.injEq _ _ ▸ h
      have htb : fupd w.coarseGrid (w.coarseIndexAt x y z) w.nextBrickIndex
          (w.coarseIndexAt x y z) = w.nextBrickIndex := fupd_self _ _ _
      refine ⟨rfl, rfl, rfl, by show w.nextBrickIndex ≤ w.nextBrickIndex + 1; omega,
        ?_, ?_, ?_, ?_, ?_, ?_⟩
      · show fupd w.coarseGrid (w.coarseIndexAt x y z) w.nextBrickIndex
          (w.coarseIndexAt x y z) ≠ 0
        rw [htb]
        have := hwf.2.2.1
        omega
      · intro ci hci
        by_cases he : ci = w.coarseIndexAt x y z
        · rw [he] at hci
          exact absurd hci0 hci
        · exact fupd_other _ _ _ _ he
      · intro q
        show q ∈ setAdd w.dirtyBricks w.nextBrickIndex ↔ q ∈ w.dirtyBricks ∨
          q = fupd w.coarseGrid (w.coarseIndexAt x y z) w.nextBrickIndex
            (w.coarseIndexAt x y z)
        rw [htb]
        exact mem_setAdd _ _ _
      · intro q hq
        have hq2 : q ≠ w.nextBrickIndex := fun he => hq (by rw [he]; exact htb.symm)
        exact mapGet_append_ne _ _ _ _ hq2
      · exact fun hn => nodup_setAdd _ _ hn
      · simp [hci0]
    · obtain ⟨bd, hbd⟩ := (wf_mapGet_iff w hwf _).mpr
        ⟨Nat.one_le_iff_ne_zero.mpr hci0, hwf.2.1 _ hcilt⟩
      rw [setVoxel_existing w x y z r g b a hx0 (by omega) hy0 (by omega) hz0
        (by omega) _ bd rfl hci0 hbd] at h
      obtain ⟨-, rfl⟩ := Prod.mk.injEq _ _ _ _ ▸ Option.some.injEq _ _ ▸ h
      refine ⟨rfl, rfl, rfl, Nat.le_refl _, hci0, fun ci _ => rfl, ?_, ?_, ?_, ?_⟩
      · intro q
        exact mem_setAdd _ _ _
      · intro q hq
        exact mapGet_mapSet_ne _ _ _ _ hq
      · exact fun hn => nodup_setAdd _ _ hn
      · simp [hci0]

theorem writeRGBA_reads (bd : BrickData) (idx r g b a : Nat) :
    writeRGBA bd idx r g b a idx = r % 256 ∧
    writeRGBA bd idx r g b a (idx + 1) = g % 256 ∧
    writeRGBA bd idx r g b a (idx + 2) = b % 256 ∧
    writeRGBA bd idx r g b a (idx + 3) = a % 256 := by
  unfold writeRGBA
  refine ⟨?_, ?_, ?_, ?_⟩
  · rw [fupd_other _ _ _ _ (by omega), fupd_other _ _ _ _ (by omega),
      fupd_other _ _ _ _ (by omega), fupd_self]
  · rw [fupd_other _ _ _ _ (by omega), fupd_other _ _ _ _ (by omega), fupd_self]
  · rw [fupd_other _ _ _ _ (by omega), fupd_self]
  · rw [fupd_self]

theorem writeRGBA_other (bd : BrickData) (idx r g b a j : Nat)
    (h0 : j ≠ idx) (h1 : j ≠ idx + 1) (h2 : j ≠ idx + 2) (h3 : j ≠ idx + 3) :
    writeRGBA bd idx r g b a j = bd j := by
  unfold writeRGBA
  rw [fupd_other _ _ _ _ h3, fupd_other _ _ _ _ h2, fupd_other _ _ _ _ h1,
    fupd_other _ _ _ _ h0]

/-- Claim C7: for any coordinate with at least one component outside
`[0, worldSize)`, `setVoxel` returns `false` and performs no mutation at all
(the identical state is returned, so coarse grid, brick table, dirty set,
coarse-dirty flag, brick count and next brick id are unchanged), and
`getVoxel` returns null. -/
theorem claim_C7_out_of_bounds (w : World) (x y z : Int) (r g b a : Nat)
    (h : x < 0 ∨ (w.worldSize : Int) ≤ x ∨ y < 0 ∨ (w.worldSize : Int) ≤ y ∨
      z < 0 ∨ (w.worldSize : Int) ≤ z) :
    w.setVoxel x y z r g b a = some (false, w) ∧ w.getVoxel x y z = none :=
  ⟨setVoxel_oob w x y z r g b a h, getVoxel_oob w x y z h⟩

/-- Witness for C7 at a concrete input: the world is 16 voxels wide and the
write at `x = -1` (and at `x = 16`) is rejected without mutation. -/
theorem claim_C7_witness :
    ((-1 : Int) < 0 ∨ ((World.mkWorld 2 8).worldSize : Int) ≤ -1 ∨ (0 : Int) < 0 ∨
      ((World.mkWorld 2 8).worldSize : Int) ≤ 0 ∨ (0 : Int) < 0 ∨
      ((World.mkWorld 2 8).worldSize : Int) ≤ 0) ∧
    (World.mkWorld 2 8).setVoxel (-1) 0 0 7 7 7 255 =
      some (false, World.mkWorld 2 8) ∧
    (World.mkWorld 2 8).getVoxel (-1) 0 0 = none := by
  refine ⟨by left; decide, ?_, ?_⟩
  · exact (claim_C7_out_of_bounds (World.mkWorld 2 8) (-1) 0 0 7 7 7 255
      (by left; decide)).1
  · exact (claim_C7_out_of_bounds (World.mkWorld 2 8) (-1) 0 0 7 7 7 255
      (by left; decide)).2

/-- Claim C1: writing an in-bounds voxel with byte color `(r, g, b)` and then
reading the same coordinate returns exactly `{r, g, b, a := 255}`; and after
`clear()`, reading any in-bounds coordinate returns the empty sentinel
`{0, 0, 0, 0}`. -/
theorem claim_C1_roundtrip (w w2 : World) (x y z : Int) (r g b : Nat)
    (hwf : w.WF) (hr : r < 256) (hg : g < 256) (hb : b < 256)
    (hset : w.setVoxel x y z r g b 255 = some (true, w2)) :
    w2.getVoxel x y z = some ⟨r, g, b, 255⟩ ∧
    (∀ (w3 : World) (u v t : Int), 0 ≤ u → u < (w3.worldSize : Int) → 0 ≤ v →
      v < (w3.worldSize : Int) → 0 ≤ t → t < (w3.worldSize : Int) →
      w3.clear.getVoxel u v t = some ⟨0, 0, 0, 0⟩) := by
  constructor
  · by_cases hoob : x < 0 ∨ (w.worldSize : Int) ≤ x ∨ y < 0 ∨
        (w.worldSize : Int) ≤ y ∨ z < 0 ∨ (w.worldSize : Int) ≤ z
    · rw [setVoxel_oob w x y z r g b 255 hoob] at hset
      exact absurd (congrArg (fun o => Option.map Prod.fst o) hset) (by simp)
    · push_neg at hoob
      obtain ⟨hx0, hx, hy0, hy, hz0, hz⟩ := hoob
      obtain ⟨hcx, hcy, hcz, hcilt⟩ := inbounds_facts w x y z hx0 (by omega) hy0
        (by omega) hz0 (by omega)
      by_cases hci0 : w.coarseGrid (w.coarseIndexAt x y z) = 0
      · rw [setVoxel_fresh w x y z r g b 255 hx0 (by omega) hy0 (by omega) hz0
          (by omega) hci0 (wf_mapGet_next_none w hwf)] at hset
        have hw2 : w2 = _ := ((Prod.mk.injEq _ _ _ _).mp (Option.some.inj hset)).2.symm
        have hsz : w2.worldSize = w.worldSize := by rw [hw2]; rfl
        have hcidx : w2.coarseIndexAt x y z = w.coarseIndexAt x y z := by
          rw [hw2]
          rfl
        have hlidx : w2.localByteIndex x y z = w.localByteIndex x y z := by
          rw [hw2]
          rfl
        have hgrid : w2.coarseGrid (w.coarseIndexAt x y z) = w.nextBrickIndex := by
          rw [hw2]
          exact fupd_self _ _ _
        have hbr : mapGet w2.bricks w.nextBrickIndex =
            some (writeRGBA zeroBrick (w.localByteIndex x y z) r g b 255) := by
          rw [hw2]
          exact mapGet_append_missing w.bricks w.nextBrickIndex _
            (wf_mapGet_next_none w hwf)
        have hnext0 : w.nextBrickIndex ≠ 0 := by
          have := hwf.2.2.1
          omega
        rw [getVoxel_inbounds w2 x y z hx0 (by rw [hsz]; exact hx) hy0
          (by rw [hsz]; exact hy) hz0 (by rw [hsz]; exact hz)]
        rw [hcidx, hlidx, hgrid, if_neg hnext0, hbr]
        obtain ⟨e0, e1, e2, e3⟩ := writeRGBA_reads zeroBrick
          (w.localByteIndex x y z) r g b 255
        simp only [e0, e1, e2, e3]
        rw [Nat.mod_eq_of_lt hr, Nat.mod_eq_of_lt hg, Nat.mod_eq_of_lt hb]
      · obtain ⟨bd, hbd⟩ := (wf_mapGet_iff w hwf _).mpr
          ⟨Nat.one_le_iff_ne_zero.mpr hci0, hwf.2.1 _ hcilt⟩
        rw [setVoxel_existing w x y z r g b 255 hx0 (by omega) hy0 (by omega)
          hz0 (by omega) _ bd rfl hci0 hbd] at hset
        have hw2 : w2 = _ := ((Prod.mk.injEq _ _ _ _).mp (Option.some.inj hset)).2.symm
        have hsz : w2.worldSize = w.worldSize := by rw [hw2]; rfl
        have hcidx : w2.coarseIndexAt x y z = w.coarseIndexAt x y z := by
          rw [hw2]
          rfl
        have hlidx : w2.localByteIndex x y z = w.localByteIndex x y z := by
          rw [hw2]
          rfl
        have hgrid : w2.coarseGrid (w.coarseIndexAt x y z) =
            w.coarseGrid (w.coarseIndexAt x y z) := by rw [hw2]
        have hbr : mapGet w2.bricks (w.coarseGrid (w.coarseIndexAt x y z)) =
            some (writeRGBA bd (w.localByteIndex x y z) r g b 255) := by
          rw [hw2]
          exact mapGet_mapSet_self _ _ _
        rw [getVoxel_inbounds w2 x y z hx0 (by rw [hsz]; exact hx) hy0
          (by rw [hsz]; exact hy) hz0 (by rw [hsz]; exact hz)]
        rw [hcidx, hlidx, hgrid, if_neg hci0, hbr]
        obtain ⟨e0, e1, e2, e3⟩ := writeRGBA_reads bd
          (w.localByteIndex x y z) r g b 255
        simp only [e0, e1, e2, e3]
        rw [Nat.mod_eq_of_lt hr, Nat.mod_eq_of_lt hg, Nat.mod_eq_of_lt hb]
  · intro w3 u v t hu0 hu hv0 hv ht0 ht
    rw [getVoxel_inbounds _ u v t hu0 (by exact_mod_cast hu) hv0
      (by exact_mod_cast hv) ht0 (by exact_mod_cast ht)]
    exact if_pos rfl

/-- Witness for C1 at a concrete input: writing `(200, 10, 10)` at `(5,5,5)`
in a 16-wide world reads back `{200, 10, 10, 255}`. -/
theorem claim_C1_witness :
    (World.mkWorld 2 8).WF ∧ 200 < 256 ∧ 10 < 256 ∧
    (World.mkWorld 2 8).setVoxel 5 5 5 200 10 10 255 = some (true, w16written) ∧
    w16written.getVoxel 5 5 5 = some ⟨200, 10, 10, 255⟩ ∧
    w16written.clear.getVoxel 5 5 5 = some ⟨0, 0, 0, 0⟩ := by
  have hrt := claim_C1_roundtrip (World.mkWorld 2 8) w16written 5 5 5 200 10 10
    (by decide) (by decide) (by decide) (by decide) rfl
  exact ⟨by decide, by decide, by decide, rfl, hrt.1,
    hrt.2 w16written 5 5 5 (by decide) (by decide) (by decide) (by decide)
      (by decide) (by decide)⟩

/-- Claim C10: for every in-bounds coordinate, all indices computed on the
write path are in range — the linearized coarse index is below
`coarseSize ** 3` (and `_getCoarseIndex` does not return its `-1` sentinel),
each local coordinate is below `brickSize`, the voxel byte offset plus 3 is
below `brickSize ** 3 * 4`, `_getOrCreateBrick` returns a non-null result
holding a present brick, and `setVoxel` returns `true` (its second
`false`-return branch is unreachable under the bounds precondition). -/
theorem claim_C10_index_safety (w : World) (x y z : Int) (r g b a : Nat)
    (hwf : w.WF) (hx0 : 0 ≤ x) (hx : x < (w.worldSize : Int)) (hy0 : 0 ≤ y)
    (hy : y < (w.worldSize : Int)) (hz0 : 0 ≤ z) (hz : z < (w.worldSize : Int)) :
    w.coarseIndexAt x y z < w.coarseSize * w.coarseSize * w.coarseSize ∧
    w.getCoarseIndex (x.toNat / w.brickSize) (y.toNat / w.brickSize)
      (z.toNat / w.brickSize) = some (w.coarseIndexAt x y z) ∧
    x.toNat % w.brickSize < w.brickSize ∧ y.toNat % w.brickSize < w.brickSize ∧
    z.toNat % w.brickSize < w.brickSize ∧
    w.localByteIndex x y z + 3 < w.brickSize * w.brickSize * w.brickSize * 4 ∧
    (∃ p, (w.getOrCreateBrick (x.toNat / w.brickSize) (y.toNat / w.brickSize)
        (z.toNat / w.brickSize)).1 = some p ∧ p.1.isSome = true) ∧
    (∃ w2, w.setVoxel x y z r g b a = some (true, w2)) := by
  obtain ⟨hcx, hcy, hcz, hcilt⟩ := inbounds_facts w x y z hx0 hx hy0 hy hz0 hz
  have hws : 0 < w.worldSize := by omega
  obtain ⟨hcs, hB⟩ := worldSize_parts_pos w hws
  refine ⟨hcilt, ?_, Nat.mod_lt _ hB, Nat.mod_lt _ hB, Nat.mod_lt _ hB,
    localByteIndex_bound w x y z hB, ?_, ?_⟩
  · unfold World.getCoarseIndex
    rw [if_pos ⟨hcx, hcy, hcz⟩]
    rfl
  · by_cases hci0 : w.coarseGrid (w.coarseIndexAt x y z) = 0
    · rw [getOrCreateBrick_fresh w _ _ _ hcx hcy hcz (by exact hci0)]
      refine ⟨_, rfl, ?_⟩
      rw [mapGet_append_missing w.bricks w.nextBrickIndex _
        (wf_mapGet_next_none w hwf)]
      rfl
    · obtain ⟨bd, hbd⟩ := (wf_mapGet_iff w hwf _).mpr
        ⟨Nat.one_le_iff_ne_zero.mpr hci0, hwf.2.1 _ hcilt⟩
      rw [getOrCreateBrick_existing w _ _ _ hcx hcy hcz _ rfl hci0]
      refine ⟨_, rfl, ?_⟩
      show (mapGet w.bricks (w.coarseGrid (w.coarseIndexAt x y z))).isSome = true
      rw [hbd]
      rfl
  · by_cases hci0 : w.coarseGrid (w.coarseIndexAt x y z) = 0
    · exact ⟨_, setVoxel_fresh w x y z r g b a hx0 hx hy0 hy hz0 hz hci0
        (wf_mapGet_next_none w hwf)⟩
    · obtain ⟨bd, hbd⟩ := (wf_mapGet_iff w hwf _).mpr
        ⟨Nat.one_le_iff_ne_zero.mpr hci0, hwf.2.1 _ hcilt⟩
      exact ⟨_, setVoxel_existing w x y z r g b a hx0 hx hy0 hy hz0 hz _ bd rfl
        hci0 hbd⟩

/-- Witness for C10 at a concrete input: coordinate `(5, 5, 5)` of the
16-wide world. -/
theorem claim_C10_witness :
    (World.mkWorld 2 8).WF ∧ (0 : Int) ≤ 5 ∧
    (5 : Int) < ((World.mkWorld 2 8).worldSize : Int) ∧
    (World.mkWorld 2 8).coarseIndexAt 5 5 5 < 8 ∧
    (∃ w2, (World.mkWorld 2 8).setVoxel 5 5 5 200 10 10 255 = some (true, w2)) := by
  have h := claim_C10_index_safety (World.mkWorld 2 8) 5 5 5 200 10 10 255
    (by decide) (by decide) (by decide) (by decide) (by decide) (by decide)
    (by decide)
  exact ⟨by decide, by decide, by decide, h.1, h.2.2.2.2.2.2.2⟩

/-- Claim C8: two writes into the same previously-empty coarse cell allocate
exactly one brick. The first write allocates a zero-initialized brick (all
bytes outside the four written ones are 0), assigns it the next brick id,
increments the brick count and next index by one, and sets the
coarse-grid-dirty flag; the second write reuses it, leaving the brick count,
next index and the cell's binding unchanged. -/
theorem claim_C8_alloc_idempotent (w w1 w2 : World)
    (x1 y1 z1 x2 y2 z2 : Int) (r1 g1 b1 a1 r2 g2 b2 a2 : Nat) (hwf : w.WF)
    (hcell_x : x1.toNat / w.brickSize = x2.toNat / w.brickSize)
    (hcell_y : y1.toNat / w.brickSize = y2.toNat / w.brickSize)
    (hcell_z : z1.toNat / w.brickSize = z2.toNat / w.brickSize)
    (hempty : w.coarseGrid (w.coarseIndexAt x1 y1 z1) = 0)
    (hs1 : w.setVoxel x1 y1 z1 r1 g1 b1 a1 = some (true, w1))
    (hs2 : w1.setVoxel x2 y2 z2 r2 g2 b2 a2 = some (true, w2)) :
    w1.brickCount = w.brickCount + 1 ∧
    w1.nextBrickIndex = w.nextBrickIndex + 1 ∧
    w1.coarseGrid (w.coarseIndexAt x1 y1 z1) = w.nextBrickIndex ∧
    w1.coarseGridDirty = true ∧
    (∃ bd, mapGet w1.bricks w.nextBrickIndex = some bd ∧
      ∀ j, j ≠ w.localByteIndex x1 y1 z1 → j ≠ w.localByteIndex x1 y1 z1 + 1 →
        j ≠ w.localByteIndex x1 y1 z1 + 2 → j ≠ w.localByteIndex x1 y1 z1 + 3 →
        bd j = 0) ∧
    w2.brickCount = w1.brickCount ∧ w2.nextBrickIndex = w1.nextBrickIndex ∧
    w2.coarseGrid (w.coarseIndexAt x1 y1 z1) = w1.coarseGrid (w.coarseIndexAt x1 y1 z1) := by
  by_cases hoob : x1 < 0 ∨ (w.worldSize : Int) ≤ x1 ∨ y1 < 0 ∨
      (w.worldSize : Int) ≤ y1 ∨ z1 < 0 ∨ (w.worldSize : Int) ≤ z1
  · rw [setVoxel_oob w x1 y1 z1 r1 g1 b1 a1 hoob] at hs1
    exact absurd (congrArg (fun o => Option.map Prod.fst o) hs1) (by simp)
  push_neg at hoob
  obtain ⟨hx0, hx, hy0, hy, hz0, hz⟩ := hoob
  rw [setVoxel_fresh w x1 y1 z1 r1 g1 b1 a1 hx0 (by omega) hy0 (by omega) hz0
    (by omega) hempty (wf_mapGet_next_none w hwf)] at hs1
  have hw1 : w1 = _ := ((Prod.mk.injEq _ _ _ _).mp (Option.some.inj hs1)).2.symm
  have hbc : w1.brickCount = w.brickCount + 1 := by rw [hw1]
  have hnx : w1.nextBrickIndex = w.nextBrickIndex + 1 := by rw [hw1]
  have hcg : w1.coarseGrid (w.coarseIndexAt x1 y1 z1) = w.nextBrickIndex := by
    rw [hw1]
    exact fupd_self _ _ _
  have hcd : w1.coarseGridDirty = true := by rw [hw1]
  have hbd1 : mapGet w1.bricks w.nextBrickIndex =
      some (writeRGBA zeroBrick (w.localByteIndex x1 y1 z1) r1 g1 b1 a1) := by
    rw [hw1]
    exact mapGet_append_missing w.bricks w.nextBrickIndex _
      (wf_mapGet_next_none w hwf)
  refine ⟨hbc, hnx, hcg, hcd, ⟨_, hbd1, ?_⟩, ?_⟩
  · intro j h0 h1 h2 h3
    rw [writeRGBA_other _ _ _ _ _ _ _ h0 h1 h2 h3]
    rfl
  · -- the second write reuses the existing brick
    have hsz1 : w1.brickSize = w.brickSize := by rw [hw1]
    have hcs1 : w1.coarseSize = w.coarseSize := by rw [hw1]
    have hws1 : w1.worldSize = w.worldSize := by rw [hw1]; rfl
    by_cases hoob2 : x2 < 0 ∨ (w1.worldSize : Int) ≤ x2 ∨ y2 < 0 ∨
        (w1.worldSize : Int) ≤ y2 ∨ z2 < 0 ∨ (w1.worldSize : Int) ≤ z2
    · rw [setVoxel_oob w1 x2 y2 z2 r2 g2 b2 a2 hoob2] at hs2
      exact absurd (congrArg (fun o => Option.map Prod.fst o) hs2) (by simp)
    push_neg at hoob2
    obtain ⟨hx20, hx2, hy20, hy2, hz20, hz2⟩ := hoob2
    have hsamecell : w1.coarseIndexAt x2 y2 z2 = w.coarseIndexAt x1 y1 z1 := by
      unfold World.coarseIndexAt
      rw [hsz1, hcs1, ← hcell_x, ← hcell_y, ← hcell_z]
    have hne0 : w1.coarseGrid (w1.coarseIndexAt x2 y2 z2) ≠ 0 := by
      rw [hsamecell, hcg]
      have := hwf.2.2.1
      omega
    obtain ⟨bd2, hbd2⟩ : ∃ bd2, mapGet w1.bricks
        (w1.coarseGrid (w1.coarseIndexAt x2 y2 z2)) = some bd2 := by
      rw [hsamecell, hcg]
      exact ⟨_, hbd1⟩
    rw [setVoxel_existing w1 x2 y2 z2 r2 g2 b2 a2 hx20 (by omega) hy20
      (by omega) hz20 (by omega) _ bd2 rfl hne0 hbd2] at hs2
    have hw2 : w2 = _ := ((Prod.mk.injEq _ _ _ _).mp (Option.some.inj hs2)).2.symm
    refine ⟨by rw [hw2], by rw [hw2], by rw [hw2]⟩

/-- Witness for C8 at a concrete input: writes at `(5,5,5)` and `(6,5,5)`
share the coarse cell `(0,0,0)`; the first allocates brick 1, the second
allocates nothing. -/
theorem claim_C8_witness :
    (World.mkWorld 2 8).WF ∧
    (World.mkWorld 2 8).coarseGrid ((World.mkWorld 2 8).coarseIndexAt 5 5 5) = 0 ∧
    (World.mkWorld 2 8).brickCount = 0 ∧ w16written.brickCount = 1 ∧
    w16written2.brickCount = 1 ∧ w16written2.nextBrickIndex = 2 := by
  have h := claim_C8_alloc_idempotent (World.mkWorld 2 8) w16written w16written2
    5 5 5 6 5 5 200 10 10 255 90 90 90 255 (by decide) (by decide) (by decide)
    (by decide) (by decide) rfl rfl
  refine ⟨by decide, by decide, by decide, ?_, ?_, ?_⟩
  · rw [h.1]
    decide
  · rw [h.2.2.2.2.2.1, h.1]
    decide
  · rw [h.2.2.2.2.2.2.1, h.2.1]
    decide

theorem applyWrites_cons_true (w w1 : World) (op : WriteOp) (rest : List WriteOp)
    (h : w.setVoxel op.x op.y op.z op.r op.g op.b op.a = some (true, w1)) :
    w.applyWrites (op :: rest) = w1.applyWrites rest := by
  conv_lhs => unfold World.applyWrites
  rw [h]

theorem applyWrites_cons_none (w : World) (op : WriteOp) (rest : List WriteOp)
    (h : w.setVoxel op.x op.y op.z op.r op.g op.b op.a = none) :
    w.applyWrites (op :: rest) = none := by
  unfold World.applyWrites
  rw [h]

theorem applyWrites_cons_false (w w1 : World) (op : WriteOp) (rest : List WriteOp)
    (h : w.setVoxel op.x op.y op.z op.r op.g op.b op.a = some (false, w1)) :
    w.applyWrites (op :: rest) = none := by
  unfold World.applyWrites
  rw [h]

theorem applyWrites_spec (l : List WriteOp) : ∀ (w wN : World), w.WF →
    w.applyWrites l = some wN →
    wN.WF ∧ wN.coarseSize = w.coarseSize ∧ wN.brickSize = w.brickSize ∧
    (∀ ci, w.coarseGrid ci ≠ 0 → wN.coarseGrid ci = w.coarseGrid ci) ∧
    (∀ q, q ∈ wN.dirtyBricks ↔ q ∈ w.dirtyBricks ∨
      ∃ op, op ∈ l ∧ wN.writeTargetBrick op = q) ∧
    (w.dirtyBricks.Nodup → wN.dirtyBricks.Nodup) := by
  induction l with
  | nil =>
      intro w wN hwf hrun
      have hw : w = wN := by simpa [World.applyWrites] using hrun
      subst hw
      exact ⟨hwf, rfl, rfl, fun _ _ => rfl, fun q => by simp, id⟩
  | cons op rest ih =>
      intro w wN hwf hrun
      rcases hsv : w.setVoxel op.x op.y op.z op.r op.g op.b op.a with _ | ⟨ok, w1⟩
      · rw [applyWrites_cons_none w op rest hsv] at hrun
        cases hrun
      · cases ok with
        | false =>
            rw [applyWrites_cons_false w w1 op rest hsv] at hrun
            cases hrun
        | true =>
            rw [applyWrites_cons_true w w1 op rest hsv] at hrun
            obtain ⟨hcs1, hbs1, has1, hnx1, htb1, hstab1, hdirty1, hbro1, hnd1,
              hcgd1⟩ := setVoxel_step w op.x op.y op.z op.r op.g op.b op.a w1 hwf hsv
            have hwf1 := wf_setVoxel w op.x op.y op.z op.r op.g op.b op.a true w1
              hwf hsv
            obtain ⟨hwfN, hcsN, hbsN, hstabN, hdirtyN, hndN⟩ := ih w1 wN hwf1 hrun
            have hcellN : wN.writeCoarseIndex op = w.coarseIndexAt op.x op.y op.z := by
              unfold World.writeCoarseIndex World.coarseIndexAt
              rw [hbsN, hcsN, hbs1, hcs1]
            have hkey : wN.writeTargetBrick op =
                w1.coarseGrid (w.coarseIndexAt op.x op.y op.z) := by
              unfold World.writeTargetBrick
              rw [hcellN]
              exact hstabN _ htb1
            refine ⟨hwfN, hcsN.trans hcs1, hbsN.trans hbs1, ?_, ?_,
              fun hnd => hndN (hnd1 hnd)⟩
            · intro ci hci
              rw [hstabN ci (by rw [hstab1 ci hci]; exact hci), hstab1 ci hci]
            · intro q
              rw [hdirtyN q, hdirty1 q]
              constructor
              · rintro ((hq | rfl) | ⟨op2, hop2, rfl⟩)
                · exact Or.inl hq
                · exact Or.inr ⟨op, List.mem_cons_self _ _, hkey⟩
                · exact Or.inr ⟨op2, List.mem_cons_of_mem _ hop2, rfl⟩
              · rintro (hq | ⟨op2, hop2, rfl⟩)
                · exact Or.inl (Or.inl hq)
                · rcases List.mem_cons.mp hop2 with rfl | hop2r
                  · exact Or.inl (Or.inr hkey)
                  · exact Or.inr ⟨op2, hop2r, rfl⟩

/-- Claim C3: from a drained state, after any sequence of successful writes,
`getDirtyBricksAndClear` returns exactly the set of bricks the writes
targeted — no duplicates, no omissions — and atomically clears the dirty
state; an immediately following second call returns an empty brick list and
a false coarse-dirty flag. -/
theorem claim_C3_dirty_set (w wN : World) (l : List WriteOp) (hwf : w.WF)
    (hdrained : w.dirtyBricks = []) (hrun : w.applyWrites l = some wN) :
    (wN.getDirtyBricksAndClear).1.1.Nodup ∧
    (∀ q, q ∈ (wN.getDirtyBricksAndClear).1.1 ↔
      ∃ op, op ∈ l ∧ wN.writeTargetBrick op = q) ∧
    ((wN.getDirtyBricksAndClear).2).dirtyBricks = [] ∧
    ((wN.getDirtyBricksAndClear).2).coarseGridDirty = false ∧
    ((wN.getDirtyBricksAndClear).2).getDirtyBricksAndClear =
      (([], false), (wN.getDirtyBricksAndClear).2) := by
  obtain ⟨-, -, -, -, hdirty, hnodup⟩ := applyWrites_spec l w wN hwf hrun
  refine ⟨?_, ?_, rfl, rfl, rfl⟩
  · exact hnodup (by rw [hdrained]; exact List.nodup_nil)
  · intro q
    rw [show (wN.getDirtyBricksAndClear).1.1 = wN.dirtyBricks from rfl]
    rw [hdirty q, hdrained]
    simp

/-- Witness for C3 at a concrete input: three writes touching bricks 1 and 2
drain to exactly `[1, 2]`, and a second drain is empty. -/
theorem claim_C3_witness :
    (World.mkWorld 2 8).WF ∧ (World.mkWorld 2 8).dirtyBricks = [] ∧
    (World.mkWorld 2 8).applyWrites c3ops = some c3world ∧
    (c3world.getDirtyBricksAndClear).1.1 = [1, 2] ∧
    (c3world.getDirtyBricksAndClear).1.1.Nodup ∧
    (∀ q, q ∈ (c3world.getDirtyBricksAndClear).1.1 ↔
      ∃ op, op ∈ c3ops ∧ c3world.writeTargetBrick op = q) ∧
    ((c3world.getDirtyBricksAndClear).2).getDirtyBricksAndClear =
      (([], false), (c3world.getDirtyBricksAndClear).2) := by
  have h := claim_C3_dirty_set (World.mkWorld 2 8) c3world c3ops (by decide)
    (by decide) rfl
  exact ⟨by decide, by decide, rfl, by decide, h.1, h.2.1, h.2.2.2.2⟩

/-! The engine synchronization invariant. -/

theorem mapGet_some_mem (m : List (Nat × BrickData)) (k : Nat) (v : BrickData)
    (h : mapGet m k = some v) : (k, v) ∈ m := by
  induction m with
  | nil => cases h
  | cons p rest ih =>
      obtain ⟨k1, v1⟩ := p
      by_cases hk : k1 = k
      · subst hk
        have h2 : some v1 = some v := by simpa [mapGet] using h
        obtain rfl := Option.some.inj h2
        exact List.mem_cons_self _ _
      · simp only [mapGet, if_neg hk] at h
        exact List.mem_cons_of_mem _ (ih h)

theorem setVoxel_false_eq (w : World) (x y z : Int) (r g b a : Nat) (w2 : World)
    (hwf : w.WF) (h : w.setVoxel x y z r g b a = some (false, w2)) : w2 = w := by
  by_cases hoob : x < 0 ∨ (w.worldSize : Int) ≤ x ∨ y < 0 ∨ (w.worldSize : Int) ≤ y ∨
      z < 0 ∨ (w.worldSize : Int) ≤ z
  · rw [setVoxel_oob w x y z r g b a hoob] at h
    exact ((Prod.mk.injEq _ _ _ _).mp (Option.some.inj h)).2.symm
  · push_neg at hoob
    obtain ⟨hx0, hx, hy0, hy, hz0, hz⟩ := hoob
    obtain ⟨hcx, hcy, hcz, hcilt⟩ := inbounds_facts w x y z hx0 (by omega) hy0
      (by omega) hz0 (by omega)
    by_cases hci0 : w.coarseGrid (w.coarseIndexAt x y z) = 0
    · rw [setVoxel_fresh w x y z r g b a hx0 (by omega) hy0 (by omega) hz0
        (by omega) hci0 (wf_mapGet_next_none w hwf)] at h
      exact absurd (congrArg (fun o => Option.map Prod.fst o) h) (by simp)
    · obtain ⟨bd, hbd⟩ := (wf_mapGet_iff w hwf _).mpr
        ⟨Nat.one_le_iff_ne_zero.mpr hci0, hwf.2.1 _ hcilt⟩
      rw [setVoxel_existing w x y z r g b a hx0 (by omega) hy0 (by omega) hz0
        (by omega) _ bd rfl hci0 hbd] at h
      exact absurd (congrArg (fun o => Option.map Prod.fst o) h) (by simp)

theorem fits_of_cap (A B d : Nat) (hA : 0 < A) (hB : 0 < B)
    (hcap : d ≤ A * A * A) :
    (d - 1) % A * B + B ≤ A * B ∧ (d - 1) / A % A * B + B ≤ A * B ∧
    (d - 1) / (A * A) * B + B ≤ A * B := by
  have hax : (d - 1) % A < A := Nat.mod_lt _ hA
  have hay : (d - 1) / A % A < A := Nat.mod_lt _ hA
  have haz : (d - 1) / (A * A) < A := by
    have hM : 0 < A * A * A := by positivity
    rw [Nat.div_lt_iff_lt_mul (by positivity : 0 < A * A)]
    calc d - 1 < A * A * A := by omega
    _ = A * (A * A) := by ring
  refine ⟨?_, ?_, ?_⟩
  · calc (d - 1) % A * B + B = ((d - 1) % A + 1) * B := by ring
    _ ≤ A * B := Nat.mul_le_mul_right B hax
  · calc (d - 1) / A % A * B + B = ((d - 1) / A % A + 1) * B := by ring
    _ ≤ A * B := Nat.mul_le_mul_right B hay
  · calc (d - 1) / (A * A) * B + B = ((d - 1) / (A * A) + 1) * B := by ring
    _ ≤ A * B := Nat.mul_le_mul_right B haz

theorem dirtyFold_reads (w : World) (hpos : ∀ p ∈ w.bricks, 1 ≤ p.1)
    (dirty : List Nat) :
    ∀ (ta : Nat → Nat),
    (∀ bi bd, mapGet w.bricks bi = some bd → bi ∉ dirty →
      bi ≤ w.atlasSize * w.atlasSize * w.atlasSize →
      ∀ j, j < w.brickSize * w.brickSize * w.brickSize * 4 →
        ta (atlasByteIndex w.atlasSize w.brickSize bi j) = bd j) →
    ∀ bi bd, mapGet w.bricks bi = some bd →
    bi ≤ w.atlasSize * w.atlasSize * w.atlasSize →
    ∀ j, j < w.brickSize * w.brickSize * w.brickSize * 4 →
    (dirty.foldl (fun ta2 brickIndex =>
        match mapGet w.bricks brickIndex with
        | none => ta2
        | some brickData =>
            let pos := w.getBrickAtlasPos brickIndex
            if pos.1 * w.brickSize + w.brickSize ≤ w.atlasSize * w.brickSize ∧
                pos.2.1 * w.brickSize + w.brickSize ≤ w.atlasSize * w.brickSize ∧
                pos.2.2 * w.brickSize + w.brickSize ≤ w.atlasSize * w.brickSize then
              copyBrickToAtlas w.atlasSize w.brickSize brickIndex brickData ta2
            else ta2) ta)
      (atlasByteIndex w.atlasSize w.brickSize bi j) = bd j := by
  induction dirty with
  | nil =>
      intro ta hpre bi bd hbd hcap j hj
      exact hpre bi bd hbd (List.not_mem_nil _) hcap j hj
  | cons d rest ih =>
      intro ta hpre bi bd hbd hcap j hj
      simp only [List.foldl_cons]
      have hbpos : 1 ≤ bi := hpos _ (mapGet_some_mem _ _ _ hbd)
      have hA : 0 < w.atlasSize := by
        by_contra h0
        push_neg at h0
        interval_cases h : w.atlasSize
        omega
      have hB : 0 < w.brickSize := by
        by_contra h0
        push_neg at h0
        interval_cases h : w.brickSize
        omega
      refine ih _ ?_ bi bd hbd hcap j hj
      intro b2 bd2 hbd2 hnotin hcap2 j2 hj2
      have hb2pos : 1 ≤ b2 := hpos _ (mapGet_some_mem _ _ _ hbd2)
      by_cases hdb : b2 = d
      · subst hdb
        rw [hbd2]
        show (if (b2 - 1) % w.atlasSize * w.brickSize + w.brickSize ≤
            w.atlasSize * w.brickSize ∧
            (b2 - 1) / w.atlasSize % w.atlasSize * w.brickSize + w.brickSize ≤
            w.atlasSize * w.brickSize ∧
            (b2 - 1) / (w.atlasSize * w.atlasSize) * w.brickSize + w.brickSize ≤
            w.atlasSize * w.brickSize then
            copyBrickToAtlas w.atlasSize w.brickSize b2 bd2 ta
          else ta) (atlasByteIndex w.atlasSize w.brickSize b2 j2) = bd2 j2
        rw [if_pos (fits_of_cap _ _ _ hA hB hcap2)]
        rw [copyBrickToAtlas_eq _ _ _ _ _ hA hB hb2pos]
        unfold copyBrickRegionFn
        rw [atlasByteDecode_index _ _ _ _ hA hB hb2pos hj2]
        rw [if_pos ⟨rfl, hj2, rfl⟩]
      · have hpre2 := hpre b2 bd2 hbd2
          (fun hm => (List.mem_cons.mp hm).elim (fun he => hdb he) hnotin) hcap2 j2 hj2
        rcases hd : mapGet w.bricks d with _ | bdd
        · exact hpre2
        · show (if (d - 1) % w.atlasSize * w.brickSize + w.brickSize ≤
              w.atlasSize * w.brickSize ∧
              (d - 1) / w.atlasSize % w.atlasSize * w.brickSize + w.brickSize ≤
              w.atlasSize * w.brickSize ∧
              (d - 1) / (w.atlasSize * w.atlasSize) * w.brickSize + w.brickSize ≤
              w.atlasSize * w.brickSize then
              copyBrickToAtlas w.atlasSize w.brickSize d bdd ta
            else ta) (atlasByteIndex w.atlasSize w.brickSize b2 j2) = bd2 j2
          have hdpos : 1 ≤ d := hpos _ (mapGet_some_mem _ _ _ hd)
          by_cases hfits : (d - 1) % w.atlasSize * w.brickSize + w.brickSize ≤
              w.atlasSize * w.brickSize ∧
              (d - 1) / w.atlasSize % w.atlasSize * w.brickSize + w.brickSize ≤
              w.atlasSize * w.brickSize ∧
              (d - 1) / (w.atlasSize * w.atlasSize) * w.brickSize + w.brickSize ≤
              w.atlasSize * w.brickSize
          · rw [if_pos hfits]
            rw [copyBrickToAtlas_eq _ _ _ _ _ hA hB hdpos]
            unfold copyBrickRegionFn
            rw [atlasByteDecode_index _ _ _ _ hA hB hb2pos hj2]
            rw [if_neg (by rintro ⟨h1, -, -⟩; exact hdb h1)]
            exact hpre2
          · rw [if_neg hfits]
            exact hpre2

theorem inv_create (cs bs as : Nat) :
    Engine.MirrorInv cs bs as (Engine.create cs bs as) := by
  refine ⟨wf_mkWorldAtlas cs bs as, rfl, rfl, rfl, ?_⟩
  intro bi bd hbd
  cases hbd

theorem inv_write (cs bs as : Nat) (e : Engine) (x y z : Int) (r g b a : Nat)
    (ok : Bool) (w2 : World) (hinv : Engine.MirrorInv cs bs as e)
    (hsv : e.world.setVoxel x y z r g b a = some (ok, w2)) :
    Engine.MirrorInv cs bs as { e with world := w2 } := by
  obtain ⟨hwf, hcs, hbs, has, hsync⟩ := hinv
  cases ok with
  | false =>
      have hw2 := setVoxel_false_eq _ x y z r g b a w2 hwf hsv
      subst hw2
      exact ⟨hwf, hcs, hbs, has, hsync⟩
  | true =>
      obtain ⟨-, -, -, -, htb, -, hdirty, hbro, -, -⟩ :=
        setVoxel_step e.world x y z r g b a w2 hwf hsv
      refine ⟨wf_setVoxel _ x y z r g b a true w2 hwf hsv, by
        rw [(setVoxel_step e.world x y z r g b a w2 hwf hsv).1, hcs], by
        rw [(setVoxel_step e.world x y z r g b a w2 hwf hsv).2.1, hbs], by
        rw [(setVoxel_step e.world x y z r g b a w2 hwf hsv).2.2.1, has], ?_⟩
      intro bi bd hbd hnd hcap j hj
      have hne : bi ≠ w2.coarseGrid (e.world.coarseIndexAt x y z) := by
        intro he
        exact hnd ((hdirty bi).mpr (Or.inr he))
      have hnd0 : bi ∉ e.world.dirtyBricks := by
        intro hm
        exact hnd ((hdirty bi).mpr (Or.inl hm))
      rw [hbro bi hne] at hbd
      exact hsync bi bd hbd hnd0 hcap j hj

theorem inv_uploadWorld (cs bs as : Nat) (e : Engine)
    (hinv : Engine.MirrorInv cs bs as e) :
    Engine.MirrorInv cs bs as e.uploadWorld := by
  obtain ⟨hwf, hcs, hbs, has, -⟩ := hinv
  refine ⟨⟨hwf.1, hwf.2.1, hwf.2.2.1, hwf.2.2.2⟩, hcs, hbs, has, ?_⟩
  intro bi bd hbd hnd hcap j hj
  rcases Nat.eq_zero_or_pos as with h0 | hA
  · subst h0
    have hbpos : 1 ≤ bi := wf_keys_pos _ hwf _ (mapGet_some_mem _ _ _ hbd)
    omega
  rcases Nat.eq_zero_or_pos bs with h0 | hB
  · subst h0
    omega
  show e.world.buildAtlas (atlasByteIndex as bs bi j) = bd j
  unfold World.buildAtlas
  rw [has, hbs]
  exact atlasFold_reads as bs hA hB e.world.bricks _ (wf_keys_nodup _ hwf)
    (fun p hp => wf_keys_pos _ hwf p hp) bi bd (mapGet_some_mem _ _ _ hbd)
    hcap j hj

theorem uploadDirtyBricks_run (e : Engine) :
    e.uploadDirtyBricks =
      if e.world.dirtyBricks = [] ∧ e.world.coarseGridDirty = false then
        ({ e with world := { e.world with dirtyBricks := [], coarseGridDirty := false } }, 0)
      else
        (⟨{ e.world with dirtyBricks := [], coarseGridDirty := false },
          if e.world.coarseGridDirty then e.world.coarseGrid else e.texCoarse,
          e.world.dirtyBricks.foldl (fun ta2 brickIndex =>
            match mapGet ({ e.world with dirtyBricks := [], coarseGridDirty := false } : World).bricks brickIndex with
            | none => ta2
            | some brickData =>
                let pos := ({ e.world with dirtyBricks := [], coarseGridDirty := false } : World).getBrickAtlasPos brickIndex
                if pos.1 * ({ e.world with dirtyBricks := [], coarseGridDirty := false } : World).brickSize + ({ e.world with dirtyBricks := [], coarseGridDirty := false } : World).brickSize ≤ ({ e.world with dirtyBricks := [], coarseGridDirty := false } : World).atlasSize * ({ e.world with dirtyBricks := [], coarseGridDirty := false } : World).brickSize ∧ pos.2.1 * ({ e.world with dirtyBricks := [], coarseGridDirty := false } : World).brickSize + ({ e.world with dirtyBricks := [], coarseGridDirty := false } : World).brickSize ≤ ({ e.world with dirtyBricks := [], coarseGridDirty := false } : World).atlasSize * ({ e.world with dirtyBricks := [], coarseGridDirty := false } : World).brickSize ∧ pos.2.2 * ({ e.world with dirtyBricks := [], coarseGridDirty := false } : World).brickSize + ({ e.world with dirtyBricks := [], coarseGridDirty := false } : World).brickSize ≤ ({ e.world with dirtyBricks := [], coarseGridDirty := false } : World).atlasSize * ({ e.world with dirtyBricks := [], coarseGridDirty := false } : World).brickSize then
                  copyBrickToAtlas ({ e.world with dirtyBricks := [], coarseGridDirty := false } : World).atlasSize ({ e.world with dirtyBricks := [], coarseGridDirty := false } : World).brickSize brickIndex brickData ta2
                else ta2) e.texAtlas⟩,
         e.world.dirtyBricks.length) := rfl

theorem inv_uploadIncr (cs bs as : Nat) (e : Engine)
    (hinv : Engine.MirrorInv cs bs as e) :
    Engine.MirrorInv cs bs as e.uploadDirtyBricks.1 := by
  obtain ⟨hwf, hcs, hbs, has, hsync⟩ := hinv
  subst hcs
  subst hbs
  subst has
  rw [uploadDirtyBricks_run]
  by_cases hc : e.world.dirtyBricks = [] ∧ e.world.coarseGridDirty = false
  · rw [if_pos hc]
    refine ⟨⟨hwf.1, hwf.2.1, hwf.2.2.1, hwf.2.2.2⟩, rfl, rfl, rfl, ?_⟩
    intro bi bd hbd hnd hcap j hj
    exact hsync bi bd hbd (by rw [hc.1]; exact List.not_mem_nil _) hcap j hj
  · rw [if_neg hc]
    refine ⟨⟨hwf.1, hwf.2.1, hwf.2.2.1, hwf.2.2.2⟩, rfl, rfl, rfl, ?_⟩
    intro bi bd hbd hnd hcap j hj
    exact dirtyFold_reads { e.world with dirtyBricks := [], coarseGridDirty := false }
      (fun p hp => wf_keys_pos e.world hwf p hp)
      e.world.dirtyBricks e.texAtlas hsync bi bd hbd hcap j hj

theorem reachable_inv (cs bs as : Nat) (e : Engine)
    (h : Engine.Reachable cs bs as e) : Engine.MirrorInv cs bs as e := by
  induction h with
  | init => exact inv_create cs bs as
  | write e x y z r g b a ok w2 _ hsv ih => exact inv_write cs bs as e x y z r g b a ok w2 ih hsv
  | syncFull e _ ih => exact inv_uploadWorld cs bs as e ih
  | syncIncr e _ ih => exact inv_uploadIncr cs bs as e ih

/-- C2 (corrected). Mirror equivalence holds with a capacity proviso: after
any reachable interleaving of writes, full syncs and incremental syncs, in a
synchronized state (dirty set drained), every brick id bound in the coarse
grid WHOSE ID IS WITHIN THE ATLAS CAPACITY `atlasSize ^ 3` has its mirror
region equal byte for byte to its primary payload, at the mixed-radix slot
`id - 1`. Without the proviso the property is false: both sync paths
silently skip over-capacity bricks (see the counterexample). -/
theorem claim_C2_mirror_equivalence (cs bs as : Nat) (e : Engine)
    (hreach : Engine.Reachable cs bs as e)
    (hdrained : e.world.dirtyBricks = [])
    (ci : Nat) (bd : BrickData)
    (hbd : mapGet e.world.bricks (e.world.coarseGrid ci) = some bd)
    (hcap : e.world.coarseGrid ci ≤ as * as * as)
    (j : Nat) (hj : j < bs * bs * bs * 4) :
    e.texAtlas (atlasByteIndex as bs (e.world.coarseGrid ci) j) = bd j := by
  obtain ⟨-, -, -, -, hsync⟩ := reachable_inv cs bs as e hreach
  exact hsync _ bd hbd (by rw [hdrained]; exact List.not_mem_nil _) hcap j hj

/-- C2 counterexample to the unconditional spec sentence: with atlas edge 1
(capacity one brick), writing two voxels in distinct coarse cells allocates
bricks 1 and 2; after a full sync the state is reachable and drained, brick 2
is bound in the coarse grid with alpha byte 255 in the primary store, yet its
mirror region reads 0 — the mirror does not equal the payload. -/
theorem claim_C2_counterexample :
    Engine.Reachable 2 1 1 c2cexEngine ∧
    c2cexEngine.world.dirtyBricks = [] ∧
    c2cexEngine.world.coarseGrid 1 = 2 ∧
    (mapGet c2cexEngine.world.bricks 2).map (fun bd => bd 3) = some 255 ∧
    c2cexEngine.texAtlas (atlasByteIndex 1 1 2 3) = 0 := by
  have h1 : Engine.Reachable 2 1 1 (Engine.create 2 1 1) := Engine.Reachable.init
  have h2 : Engine.Reachable 2 1 1 { Engine.create 2 1 1 with world := c2cexW1 } :=
    Engine.Reachable.write _ 0 0 0 5 6 7 255 true c2cexW1 h1 rfl
  have h3 : Engine.Reachable 2 1 1
      { { Engine.create 2 1 1 with world := c2cexW1 } with world := c2cexW2 } :=
    Engine.Reachable.write _ 1 0 0 8 9 10 255 true c2cexW2 h2 rfl
  have h4 : Engine.Reachable 2 1 1 c2cexEngine :=
    Engine.Reachable.syncFull _ h3
  exact ⟨h4, rfl, by decide, by decide, by decide⟩

/-- C2 witness: a 1-cell world with one write and one incremental sync; the
synchronized mirror byte at slot 0, channel 0 equals the primary payload
byte 3. -/
theorem claim_C2_witness :
    c2witEngine.world.dirtyBricks = [] ∧
    c2witEngine.texAtlas (atlasByteIndex 1 1 (c2witEngine.world.coarseGrid 0) 0) =
      writeRGBA zeroBrick 0 3 4 5 255 0 := by
  have hreach : Engine.Reachable 1 1 1 c2witEngine :=
    Engine.Reachable.syncIncr _
      (Engine.Reachable.write _ 0 0 0 3 4 5 255 true c2witW Engine.Reachable.init rfl)
  exact ⟨rfl, claim_C2_mirror_equivalence 1 1 1 c2witEngine hreach rfl 0
    (writeRGBA zeroBrick 0 3 4 5 255) rfl (by decide) 0 (by decide)⟩

theorem copyBrickToAtlas_b0 (A bi : Nat) (bd : BrickData) (ta : Nat → Nat) :
    copyBrickToAtlas A 0 bi bd ta = ta := rfl

theorem atlasFold_skip_all (A B : Nat) (l : List (Nat × BrickData)) (ta : Nat → Nat)
    (h : ∀ p ∈ l, A * A * A < p.1) :
    l.foldl (fun ta2 p => if p.1 > A * A * A then ta2
      else copyBrickToAtlas A B p.1 p.2 ta2) ta = ta := by
  induction l with
  | nil => rfl
  | cons p rest ih =>
      simp only [List.foldl_cons]
      rw [if_pos (h p (List.mem_cons_self _ _))]
      exact ih (fun q hq => h q (List.mem_cons_of_mem _ hq))

theorem atlasFold_b0 (A : Nat) (l : List (Nat × BrickData)) (ta : Nat → Nat) :
    l.foldl (fun ta2 p => if p.1 > A * A * A then ta2
      else copyBrickToAtlas A 0 p.1 p.2 ta2) ta = ta := by
  induction l generalizing ta with
  | nil => rfl
  | cons p rest ih =>
      simp only [List.foldl_cons]
      have hstep : (if p.1 > A * A * A then ta else copyBrickToAtlas A 0 p.1 p.2 ta) = ta := by
        rw [copyBrickToAtlas_b0, ite_self]
      rw [hstep]
      exact ih ta

theorem buildAtlas_high_zero (w : World) (hpos : ∀ p ∈ w.bricks, 1 ≤ p.1)
    (a : Nat)
    (ha : w.atlasSize * w.brickSize * (w.atlasSize * w.brickSize) *
      (w.atlasSize * w.brickSize) * 4 ≤ a) :
    w.buildAtlas a = 0 := by
  show (w.bricks.foldl (fun ta p =>
      if p.1 > w.atlasSize * w.atlasSize * w.atlasSize then ta
      else copyBrickToAtlas w.atlasSize w.brickSize p.1 p.2 ta) (fun _ => 0)) a = 0
  rcases Nat.eq_zero_or_pos w.atlasSize with hA0 | hA
  · rw [atlasFold_skip_all w.atlasSize w.brickSize w.bricks _ (fun p hp => by
      rw [hA0]
      have := hpos p hp
      omega)]
  · rcases Nat.eq_zero_or_pos w.brickSize with hB0 | hB
    · rw [hB0]
      rw [atlasFold_b0]
    · exact atlasFold_high_zero w.atlasSize w.brickSize hA hB w.bricks
        (fun _ => 0) a ha rfl

theorem dirtyFold_high_zero (w : World) (dirty : List Nat) :
    ∀ (ta : Nat → Nat) (a : Nat),
    w.atlasSize * w.brickSize * (w.atlasSize * w.brickSize) *
      (w.atlasSize * w.brickSize) * 4 ≤ a →
    ta a = 0 →
    (dirty.foldl (fun ta2 brickIndex =>
        match mapGet w.bricks brickIndex with
        | none => ta2
        | some brickData =>
            let pos := w.getBrickAtlasPos brickIndex
            if pos.1 * w.brickSize + w.brickSize ≤ w.atlasSize * w.brickSize ∧
                pos.2.1 * w.brickSize + w.brickSize ≤ w.atlasSize * w.brickSize ∧
                pos.2.2 * w.brickSize + w.brickSize ≤ w.atlasSize * w.brickSize then
              copyBrickToAtlas w.atlasSize w.brickSize brickIndex brickData ta2
            else ta2) ta) a = 0 := by
  induction dirty with
  | nil =>
      intro ta a ha hta
      exact hta
  | cons d rest ih =>
      intro ta a ha hta
      simp only [List.foldl_cons]
      refine ih _ a ha ?_
      rcases hd : mapGet w.bricks d with _ | bdd
      · exact hta
      · show (if (d - 1) % w.atlasSize * w.brickSize + w.brickSize ≤
            w.atlasSize * w.brickSize ∧
            (d - 1) / w.atlasSize % w.atlasSize * w.brickSize + w.brickSize ≤
            w.atlasSize * w.brickSize ∧
            (d - 1) / (w.atlasSize * w.atlasSize) * w.brickSize + w.brickSize ≤
            w.atlasSize * w.brickSize then
            copyBrickToAtlas w.atlasSize w.brickSize d bdd ta
          else ta) a = 0
        by_cases hfits : (d - 1) % w.atlasSize * w.brickSize + w.brickSize ≤
            w.atlasSize * w.brickSize ∧
            (d - 1) / w.atlasSize % w.atlasSize * w.brickSize + w.brickSize ≤
            w.atlasSize * w.brickSize ∧
            (d - 1) / (w.atlasSize * w.atlasSize) * w.brickSize + w.brickSize ≤
            w.atlasSize * w.brickSize
        · rw [if_pos hfits]
          unfold copyBrickToAtlas
          rw [foldl_fupd_untouched]
          · exact hta
          · intro j hj he
            have hB : 0 < w.brickSize := by
              by_contra h0
              push_neg at h0
              interval_cases h : w.brickSize
              omega
            obtain ⟨-, -, h3⟩ := hfits
            have h4 : ((d - 1) / (w.atlasSize * w.atlasSize) + 1) * w.brickSize ≤
                w.atlasSize * w.brickSize := by
              rw [Nat.add_mul, Nat.one_mul]
              exact h3
            have h5 : (d - 1) / (w.atlasSize * w.atlasSize) + 1 ≤ w.atlasSize :=
              Nat.le_of_mul_le_mul_right h4 hB
            have hA : 0 < w.atlasSize := Nat.le_trans (Nat.le_add_left 1 _) h5
            have hAA : 0 < w.atlasSize * w.atlasSize := by positivity
            have h6 : (d - 1) / (w.atlasSize * w.atlasSize) < w.atlasSize := h5
            have h7 : d - 1 < w.atlasSize * w.atlasSize * w.atlasSize := by
              have h8 := (Nat.div_lt_iff_lt_mul hAA).mp h6
              calc d - 1 < w.atlasSize * (w.atlasSize * w.atlasSize) := h8
                _ = w.atlasSize * w.atlasSize * w.atlasSize := by ring
            have hlt := atlasByteIndex_lt w.atlasSize w.brickSize d j hA hB h7 hj
            omega
        · rw [if_neg hfits]
          exact hta

theorem reachable_high_zero (cs bs as : Nat) (e : Engine)
    (h : Engine.Reachable cs bs as e) :
    ∀ a, as * bs * (as * bs) * (as * bs) * 4 ≤ a → e.texAtlas a = 0 := by
  induction h with
  | init =>
      intro a ha
      rfl
  | write e x y z r g b a0 ok w2 hr hsv ih => exact ih
  | syncFull e hr ih =>
      intro a ha
      obtain ⟨hwf, -, hbs, has, -⟩ := reachable_inv cs bs as e hr
      show e.world.buildAtlas a = 0
      refine buildAtlas_high_zero e.world (fun p hp => wf_keys_pos _ hwf p hp) a ?_
      rw [hbs, has]
      exact ha
  | syncIncr e hr ih =>
      intro a ha
      obtain ⟨hwf, -, hbs, has, -⟩ := reachable_inv cs bs as e hr
      rw [uploadDirtyBricks_run]
      by_cases hc : e.world.dirtyBricks = [] ∧ e.world.coarseGridDirty = false
      · rw [if_pos hc]
        exact ih a ha
      · rw [if_neg hc]
        refine dirtyFold_high_zero
          { e.world with dirtyBricks := [], coarseGridDirty := false }
          e.world.dirtyBricks e.texAtlas a ?_ (ih a ha)
        show e.world.atlasSize * e.world.brickSize *
          (e.world.atlasSize * e.world.brickSize) *
          (e.world.atlasSize * e.world.brickSize) * 4 ≤ a
        rw [hbs, has]
        exact ha

/-- C6: capacity boundary. In any reachable engine state, a brick whose id
exceeds the atlas capacity `atlasSize ^ 3` remains present and readable in
the primary store — `getVoxel` on any in-bounds coordinate of its coarse
cell returns the stored payload bytes — while the mirror region at its slot
reads all zero: the full sync skips such bricks outright and the incremental
sync's sub-image region exceeds the texture depth and is rejected without
writing, and neither path raises an error (both sync operations are total in
the model, mirroring the source, which at most logs a warning). A mirror-only
query therefore perceives the brick's region as empty. -/
theorem claim_C6_capacity_boundary (cs bs as : Nat) (e : Engine)
    (hreach : Engine.Reachable cs bs as e)
    (bi : Nat) (hover : as * as * as < bi) (bd : BrickData)
    (hbd : mapGet e.world.bricks bi = some bd)
    (x y z : Int) (hx0 : 0 ≤ x) (hx : x < (e.world.worldSize : Int))
    (hy0 : 0 ≤ y) (hy : y < (e.world.worldSize : Int))
    (hz0 : 0 ≤ z) (hz : z < (e.world.worldSize : Int))
    (hb : e.world.coarseGrid (e.world.coarseIndexAt x y z) = bi) :
    e.world.getVoxel x y z = some ⟨bd (e.world.localByteIndex x y z),
      bd (e.world.localByteIndex x y z + 1), bd (e.world.localByteIndex x y z + 2),
      bd (e.world.localByteIndex x y z + 3)⟩ ∧
    ∀ j, j < bs * bs * bs * 4 → e.texAtlas (atlasByteIndex as bs bi j) = 0 := by
  constructor
  · rw [getVoxel_inbounds e.world x y z hx0 hx hy0 hy hz0 hz, hb]
    have hbi1 : bi ≠ 0 := by
      obtain ⟨hwf, -, -, -, -⟩ := reachable_inv cs bs as e hreach
      have := wf_keys_pos _ hwf _ (mapGet_some_mem _ _ _ hbd)
      omega
    rw [if_neg hbi1, hbd]
  · intro j hj
    exact reachable_high_zero cs bs as e hreach _ (atlasByteIndex_ge as bs bi j hover)

/-- C6 witness: in the atlas-edge-1 scenario (capacity 1) with two allocated
bricks, brick 2 is over capacity: the primary store still answers `getVoxel`
at `(1,0,0)` with the stored bytes `(8,9,10,255)`, while its mirror region
reads zero. -/
theorem claim_C6_witness :
    c2cexEngine.world.getVoxel 1 0 0 = some ⟨writeRGBA zeroBrick 0 8 9 10 255
        (c2cexEngine.world.localByteIndex 1 0 0),
      writeRGBA zeroBrick 0 8 9 10 255 (c2cexEngine.world.localByteIndex 1 0 0 + 1),
      writeRGBA zeroBrick 0 8 9 10 255 (c2cexEngine.world.localByteIndex 1 0 0 + 2),
      writeRGBA zeroBrick 0 8 9 10 255 (c2cexEngine.world.localByteIndex 1 0 0 + 3)⟩ ∧
    c2cexEngine.texAtlas (atlasByteIndex 1 1 2 0) = 0 := by
  have h1 : Engine.Reachable 2 1 1 (Engine.create 2 1 1) := Engine.Reachable.init
  have h2 : Engine.Reachable 2 1 1 { Engine.create 2 1 1 with world := c2cexW1 } :=
    Engine.Reachable.write _ 0 0 0 5 6 7 255 true c2cexW1 h1 rfl
  have h3 : Engine.Reachable 2 1 1
      { { Engine.create 2 1 1 with world := c2cexW1 } with world := c2cexW2 } :=
    Engine.Reachable.write _ 1 0 0 8 9 10 255 true c2cexW2 h2 rfl
  have hreach : Engine.Reachable 2 1 1 c2cexEngine :=
    Engine.Reachable.syncFull _ h3
  have h := claim_C6_capacity_boundary 2 1 1 c2cexEngine hreach 2 (by decide)
    (writeRGBA zeroBrick 0 8 9 10 255) rfl 1 0 0 (by decide) (by decide) (by decide)
    (by decide) (by decide) (by decide) rfl
  exact ⟨h.1, h.2 0 (by decide)⟩

theorem brickIter_inl_spec (c : BrickCtx) (st : BrickState) (out : Bool × HitResult)
    (h : brickIter c st = Sum.inl out) :
    out.1 = true ∧
    out.2.color = getVoxelFromBrick c.atlasSize c.brickSize c.texA c.brickIndex
      st.mapPos ∧
    isWaterColor c.waterColor out.2.color = false ∧
    out.2.passedThroughWater = st.res.passedThroughWater ∧
    out.2.waterDistance = st.res.waterDistance := by
  simp only [brickIter] at h
  split at h
  · rename_i out0 heq
    injection h with h2
    subst h2
    split at heq
    · split at heq
      · simp at heq
      · split at heq
        · simp at heq
        · rename_i hnw3
          injection heq with he
          subst he
          refine ⟨rfl, rfl, ?_, rfl, rfl⟩
          simp only [isWaterColor]
          rw [Bool.eq_false_iff]
          intro hT
          exact hnw3 (by simpa using hT)
    · simp at heq
  · rename_i res2 heq
    split at h <;> split at h <;> simp at h

theorem brickIter_inr_water (c : BrickCtx) (st st2 : BrickState)
    (h : brickIter c st = Sum.inr st2) (hwp : st.res.passedThroughWater = true) :
    st2.res.passedThroughWater = true ∧
      st2.res.waterDistance = st.res.waterDistance := by
  simp only [brickIter] at h
  split at h
  · simp at h
  · rename_i res2 heq
    have hres : res2 = st.res := by
      split at heq
      · split at heq
        · injection heq with he
          exact he.symm
        · split at heq
          · injection heq with he
            exact he.symm
          · simp at heq
      · injection heq with he
        exact he.symm
    subst hres
    split at h <;> split at h <;>
      (injection h with h2; subst h2; exact ⟨hwp, rfl⟩)

theorem brickIter_inr_sets_water (c : BrickCtx) (st st2 : BrickState)
    (h : brickIter c st = Sum.inr st2)
    (hocc : (Frac.ofInt 0).blt (getVoxelFromBrick c.atlasSize c.brickSize c.texA
      c.brickIndex st.mapPos).a = true)
    (hiw : isWaterColor c.waterColor (getVoxelFromBrick c.atlasSize c.brickSize
      c.texA c.brickIndex st.mapPos) = true) :
    st2.res.passedThroughWater = true ∧
      (st.res.passedThroughWater = true → st2.res = st.res) := by
  simp only [brickIter] at h
  split at h
  · simp at h
  · rename_i res2 heq
    have hres : res2.passedThroughWater = true ∧
        (st.res.passedThroughWater = true → res2 = st.res) := by
      split at heq
      · split at heq
        · injection heq with he
          by_cases hp : st.res.passedThroughWater = true
          · rw [if_pos hp] at he
            subst he
            exact ⟨hp, fun _ => rfl⟩
          · rw [if_neg hp] at he
            subst he
            exact ⟨rfl, fun hp2 => absurd hp2 hp⟩
        · split at heq
          · injection heq with he
            by_cases hp : st.res.passedThroughWater = true
            · rw [if_pos hp] at he
              subst he
              exact ⟨hp, fun _ => rfl⟩
            · rw [if_neg hp] at he
              subst he
              exact ⟨rfl, fun hp2 => absurd hp2 hp⟩
          · rename_i hnw
            simp only [isWaterColor] at hiw
            exact absurd (by simpa using hiw) hnw
      · rename_i hno
        exact absurd hocc hno
    split at h <;> split at h <;>
      (injection h with h2; subst h2; exact hres)

theorem traceBrickLoop_succ_inl (c : BrickCtx) (n : Nat) (st : BrickState)
    (out : Bool × HitResult) (hb : brickIter c st = Sum.inl out) :
    traceBrickLoop c (n + 1) st = out := by
  show (match brickIter c st with
    | Sum.inl out => out
    | Sum.inr st2 =>
        if st2.mapPos.x < 0 ∨ (c.brickSize : Int) ≤ st2.mapPos.x ∨
            st2.mapPos.y < 0 ∨ (c.brickSize : Int) ≤ st2.mapPos.y ∨
            st2.mapPos.z < 0 ∨ (c.brickSize : Int) ≤ st2.mapPos.z then
          (false, st2.res)
        else traceBrickLoop c n st2) = out
  rw [hb]

theorem traceBrickLoop_succ_inr (c : BrickCtx) (n : Nat) (st st2 : BrickState)
    (hb : brickIter c st = Sum.inr st2) :
    traceBrickLoop c (n + 1) st =
      if st2.mapPos.x < 0 ∨ (c.brickSize : Int) ≤ st2.mapPos.x ∨
          st2.mapPos.y < 0 ∨ (c.brickSize : Int) ≤ st2.mapPos.y ∨
          st2.mapPos.z < 0 ∨ (c.brickSize : Int) ≤ st2.mapPos.z then
        (false, st2.res)
      else traceBrickLoop c n st2 := by
  show (match brickIter c st with
    | Sum.inl out => out
    | Sum.inr st2 =>
        if st2.mapPos.x < 0 ∨ (c.brickSize : Int) ≤ st2.mapPos.x ∨
            st2.mapPos.y < 0 ∨ (c.brickSize : Int) ≤ st2.mapPos.y ∨
            st2.mapPos.z < 0 ∨ (c.brickSize : Int) ≤ st2.mapPos.z then
          (false, st2.res)
        else traceBrickLoop c n st2) = _
  rw [hb]

theorem traceBrickLoop_water_mono (c : BrickCtx) :
    ∀ fuel st, st.res.passedThroughWater = true →
      (traceBrickLoop c fuel st).2.passedThroughWater = true ∧
      (traceBrickLoop c fuel st).2.waterDistance = st.res.waterDistance := by
  intro fuel
  induction fuel with
  | zero =>
      intro st h
      exact ⟨h, rfl⟩
  | succ n ih =>
      intro st h
      rcases hb : brickIter c st with out | st2
      · rw [traceBrickLoop_succ_inl c n st out hb]
        obtain ⟨-, -, -, hp, hwd⟩ := brickIter_inl_spec c st out hb
        rw [hp, hwd]
        exact ⟨h, rfl⟩
      · rw [traceBrickLoop_succ_inr c n st st2 hb]
        obtain ⟨hp, hwd⟩ := brickIter_inr_water c st st2 hb h
        by_cases hoob : st2.mapPos.x < 0 ∨ (c.brickSize : Int) ≤ st2.mapPos.x ∨
            st2.mapPos.y < 0 ∨ (c.brickSize : Int) ≤ st2.mapPos.y ∨
            st2.mapPos.z < 0 ∨ (c.brickSize : Int) ≤ st2.mapPos.z
        · rw [if_pos hoob]
          exact ⟨hp, hwd⟩
        · rw [if_neg hoob]
          obtain ⟨h1, h2⟩ := ih st2 hp
          exact ⟨h1, h2.trans hwd⟩

theorem traceBrickLoop_no_water_hit (c : BrickCtx) :
    ∀ fuel st, (traceBrickLoop c fuel st).1 = true →
      isWaterColor c.waterColor (traceBrickLoop c fuel st).2.color = false := by
  intro fuel
  induction fuel with
  | zero =>
      intro st h
      simp [traceBrickLoop] at h
  | succ n ih =>
      intro st
      rcases hb : brickIter c st with out | st2
      · rw [traceBrickLoop_succ_inl c n st out hb]
        intro hhit
        obtain ⟨-, -, hnw, -, -⟩ := brickIter_inl_spec c st out hb
        exact hnw
      · rw [traceBrickLoop_succ_inr c n st st2 hb]
        by_cases hoob : st2.mapPos.x < 0 ∨ (c.brickSize : Int) ≤ st2.mapPos.x ∨
            st2.mapPos.y < 0 ∨ (c.brickSize : Int) ≤ st2.mapPos.y ∨
            st2.mapPos.z < 0 ∨ (c.brickSize : Int) ≤ st2.mapPos.z
        · rw [if_pos hoob]
          intro hhit
          simp at hhit
        · rw [if_neg hoob]
          exact ih st2

theorem traceBrick_no_water_hit (A B : Nat) (texA : Nat → Nat) (wc : Vec3F)
    (lf : Vec3F → Frac) (bi : Nat) (ro rd : Vec3F) (cp : IVec3) (res : HitResult)
    (h : (traceBrick A B texA wc lf bi ro rd cp res).1 = true) :
    isWaterColor wc (traceBrick A B texA wc lf bi ro rd cp res).2.color = false := by
  revert h
  simp only [traceBrick]
  split
  · intro h
    simp at h
  · intro h
    exact traceBrickLoop_no_water_hit _ _ _ h

theorem traceBrick_water_mono (A B : Nat) (texA : Nat → Nat) (wc : Vec3F)
    (lf : Vec3F → Frac) (bi : Nat) (ro rd : Vec3F) (cp : IVec3) (res : HitResult)
    (h : res.passedThroughWater = true) :
    (traceBrick A B texA wc lf bi ro rd cp res).2.passedThroughWater = true ∧
    (traceBrick A B texA wc lf bi ro rd cp res).2.waterDistance = res.waterDistance := by
  simp only [traceBrick]
  split
  · exact ⟨h, rfl⟩
  · exact traceBrickLoop_water_mono _ _ _ h

/-- C5: water pass-through in the brick-local traversal. First: on an
occupied voxel whose color matches the reserved water color within the 0.02
tolerance, the loop body never early-returns — for every direction one of the
two water branches applies (`dir.y > 0` takes the first, otherwise the
`else if` takes the second) — and the continuing state has
`passedThroughWater = true`; if the crossing was already recorded the result
record is left entirely unchanged, so only the first crossing is recorded.
Second: whenever `traceBrick` reports a hit, the hit color is not
water-colored. Third: a result that has already crossed water keeps
`passedThroughWater = true` with `waterDistance` unchanged through the whole
brick traversal. -/
theorem claim_C5_water_passthrough (c : BrickCtx) (st : BrickState)
    (A B : Nat) (texA : Nat → Nat) (wc : Vec3F) (lf : Vec3F → Frac) (bi : Nat)
    (ro rd : Vec3F) (cp : IVec3) (res : HitResult) :
    ((Frac.ofInt 0).blt (getVoxelFromBrick c.atlasSize c.brickSize c.texA
        c.brickIndex st.mapPos).a = true →
      isWaterColor c.waterColor (getVoxelFromBrick c.atlasSize c.brickSize c.texA
        c.brickIndex st.mapPos) = true →
      brickIterContinuesWithWater c st = true ∧
        (st.res.passedThroughWater = true → brickIterRes c st = st.res)) ∧
    ((traceBrick A B texA wc lf bi ro rd cp res).1 = true →
      isWaterColor wc (traceBrick A B texA wc lf bi ro rd cp res).2.color = false) ∧
    (res.passedThroughWater = true →
      (traceBrick A B texA wc lf bi ro rd cp res).2.passedThroughWater = true ∧
      (traceBrick A B texA wc lf bi ro rd cp res).2.waterDistance =
        res.waterDistance) := by
  refine ⟨?_, ?_, ?_⟩
  · intro hocc hiw
    rcases hb : brickIter c st with out | st2
    · obtain ⟨-, hcol, hnw, -, -⟩ := brickIter_inl_spec c st out hb
      rw [hcol] at hnw
      rw [hiw] at hnw
      simp at hnw
    · obtain ⟨h1, h2⟩ := brickIter_inr_sets_water c st st2 hb hocc hiw
      constructor
      · unfold brickIterContinuesWithWater
        rw [hb]
        exact h1
      · intro hp
        unfold brickIterRes
        rw [hb]
        exact h2 hp
  · exact traceBrick_no_water_hit A B texA wc lf bi ro rd cp res
  · exact traceBrick_water_mono A B texA wc lf bi ro rd cp res

set_option maxHeartbeats 2000000 in
/-- C5 witness: in the two-voxel scene a downward ray crosses the water
voxel at local `(0,1,0)` without terminating (the crossing is recorded) and
hits the solid voxel below it; the reported hit color is not water-colored;
and a result that already crossed water at distance 3 reaches the hit with
its record intact. -/
theorem claim_C5_witness :
    brickIterContinuesWithWater c5ctx c5st = true ∧
    (traceBrick 1 2 c5texA c5wc c5len 1 c5origin c5dir ⟨0, 0, 0⟩
      HitResult.init).1 = true ∧
    isWaterColor c5wc (traceBrick 1 2 c5texA c5wc c5len 1 c5origin c5dir ⟨0, 0, 0⟩
      HitResult.init).2.color = false ∧
    (traceBrick 1 2 c5texA c5wc c5len 1 c5origin c5dir ⟨0, 0, 0⟩
      c5resW).2.passedThroughWater = true ∧
    (traceBrick 1 2 c5texA c5wc c5len 1 c5origin c5dir ⟨0, 0, 0⟩
      c5resW).2.waterDistance = c5resW.waterDistance := by
  have h1 := claim_C5_water_passthrough c5ctx c5st 1 2 c5texA c5wc c5len 1
    c5origin c5dir ⟨0, 0, 0⟩ HitResult.init
  have h2 := claim_C5_water_passthrough c5ctx c5st 1 2 c5texA c5wc c5len 1
    c5origin c5dir ⟨0, 0, 0⟩ c5resW
  have hhit : (traceBrick 1 2 c5texA c5wc c5len 1 c5origin c5dir ⟨0, 0, 0⟩
      HitResult.init).1 = true := by decide
  exact ⟨(h1.1 (by decide) (by decide)).1, hhit, h1.2.1 hhit,
    (h2.2.2 rfl).1, (h2.2.2 rfl).2⟩

theorem brickIter_inl_steps (c : BrickCtx) (st : BrickState) (out : Bool × HitResult)
    (h : brickIter c st = Sum.inl out) : out.2.steps = st.res.steps := by
  simp only [brickIter] at h
  split at h
  · rename_i out0 heq
    injection h with h2
    subst h2
    split at heq
    · split at heq
      · simp at heq
      · split at heq
        · simp at heq
        · injection heq with he
          subst he
          rfl
    · simp at heq
  · rename_i res2 heq
    split at h <;> split at h <;> simp at h

theorem brickIter_inr_steps (c : BrickCtx) (st st2 : BrickState)
    (h : brickIter c st = Sum.inr st2) : st2.res.steps = st.res.steps := by
  simp only [brickIter] at h
  split at h
  · simp at h
  · rename_i res2 heq
    have hres : res2.steps = st.res.steps := by
      split at heq
      · split at heq
        · injection heq with he
          by_cases hp : st.res.passedThroughWater = true
          · rw [if_pos hp] at he
            subst he
            rfl
          · rw [if_neg hp] at he
            subst he
            rfl
        · split at heq
          · injection heq with he
            by_cases hp : st.res.passedThroughWater = true
            · rw [if_pos hp] at he
              subst he
              rfl
            · rw [if_neg hp] at he
              subst he
              rfl
          · simp at heq
      · injection heq with he
        subst he
        rfl
    split at h <;> split at h <;>
      (injection h with h2; subst h2; exact hres)

theorem traceBrickLoop_steps (c : BrickCtx) :
    ∀ fuel st, (traceBrickLoop c fuel st).2.steps = st.res.steps := by
  intro fuel
  induction fuel with
  | zero =>
      intro st
      rfl
  | succ n ih =>
      intro st
      rcases hb : brickIter c st with out | st2
      · rw [traceBrickLoop_succ_inl c n st out hb]
        exact brickIter_inl_steps c st out hb
      · rw [traceBrickLoop_succ_inr c n st st2 hb]
        by_cases hoob : st2.mapPos.x < 0 ∨ (c.brickSize : Int) ≤ st2.mapPos.x ∨
            st2.mapPos.y < 0 ∨ (c.brickSize : Int) ≤ st2.mapPos.y ∨
            st2.mapPos.z < 0 ∨ (c.brickSize : Int) ≤ st2.mapPos.z
        · rw [if_pos hoob]
          exact brickIter_inr_steps c st st2 hb
        · rw [if_neg hoob]
          exact (ih st2).trans (brickIter_inr_steps c st st2 hb)

theorem traceBrick_steps (A B : Nat) (texA : Nat → Nat) (wc : Vec3F)
    (lf : Vec3F → Frac) (bi : Nat) (ro rd : Vec3F) (cp : IVec3) (res : HitResult) :
    (traceBrick A B texA wc lf bi ro rd cp res).2.steps = res.steps := by
  simp only [traceBrick]
  split
  · rfl
  · exact traceBrickLoop_steps _ _ _

theorem tracedPair_steps (as bs bI : Nat) (texA : Nat → Nat) (wc : Vec3F)
    (lf : Vec3F → Frac) (o d : Vec3F) (cp : IVec3) (r : HitResult) :
    (if 0 < bI then traceBrick as bs texA wc lf bI o d cp r
     else (false, r)).2.steps = r.steps := by
  split
  · exact traceBrick_steps as bs texA wc lf bI o d cp r
  · rfl

theorem traceRayLoop_steps (cs as bs : Nat) (texC texA : Nat → Nat) (wc : Vec3F)
    (lf : Vec3F → Frac) (maxSteps : Nat) (o d : Vec3F) (stepv : IVec3)
    (dd : Vec3F) :
    ∀ fuel i cp sd res, res.steps ≤ min i maxSteps →
      (traceRayLoop cs as bs texC texA wc lf maxSteps o d stepv dd fuel i cp sd
        res).steps ≤ min (i + fuel) maxSteps := by
  intro fuel
  induction fuel with
  | zero =>
      intro i cp sd res h
      simpa [traceRayLoop] using h
  | succ n ih =>
      intro i cp sd res h
      simp only [traceRayLoop]
      split
      · exact le_trans h (by omega)
      · rename_i hms
        split
        · split
          · rw [traceBrick_steps]
            show i + 1 ≤ min (i + (n + 1)) maxSteps
            omega
          · split <;> split <;> split <;>
              first
              | (rw [traceBrick_steps]
                 show i + 1 ≤ min (i + (n + 1)) maxSteps
                 omega)
              | (have hb2 : i + (n + 1) = (i + 1) + n := by omega
                 rw [hb2]
                 refine ih (i + 1) _ _ _ ?_
                 rw [traceBrick_steps]
                 show i + 1 ≤ min (i + 1) maxSteps
                 omega)
        · split
          · rename_i hf
            simp at hf
          · split <;> split <;> split <;>
              first
              | (show i + 1 ≤ min (i + (n + 1)) maxSteps
                 omega)
              | (have hb2 : i + (n + 1) = (i + 1) + n := by omega
                 rw [hb2]
                 refine ih (i + 1) _ _ _ ?_
                 show i + 1 ≤ min (i + 1) maxSteps
                 omega)

theorem traceRay_steps (cs as bs : Nat) (texC texA : Nat → Nat) (wc : Vec3F)
    (lf : Vec3F → Frac) (maxSteps : Nat) (o d : Vec3F) :
    (traceRay cs as bs texC texA wc lf maxSteps o d).steps ≤ min 512 maxSteps := by
  simp only [traceRay]
  split
  · show (0 : Nat) ≤ min 512 maxSteps
    omega
  · have h512 : (0 : Nat) + 512 = 512 := rfl
    conv_rhs => rw [← h512]
    exact traceRayLoop_steps cs as bs texC texA wc lf maxSteps o d _ _ 512 0 _ _
      HitResult.init (by show (0 : Nat) ≤ min 0 maxSteps; omega)

theorem traceShadowLoop_values (cs as bs : Nat) (texC texA : Nat → Nat)
    (wc : Vec3F) (lf : Vec3F → Frac) (o d : Vec3F) (stepv : IVec3) (dd : Vec3F) :
    ∀ fuel cp sd tmp,
      traceShadowLoop cs as bs texC texA wc lf o d stepv dd fuel cp sd tmp =
        (⟨3, 10⟩ : Frac) ∨
      traceShadowLoop cs as bs texC texA wc lf o d stepv dd fuel cp sd tmp =
        Frac.ofInt 1 := by
  intro fuel
  induction fuel with
  | zero =>
      intro cp sd tmp
      exact Or.inr rfl
  | succ n ih =>
      intro cp sd tmp
      simp only [traceShadowLoop]
      split
      · exact Or.inr rfl
      · split
        · split
          · exact Or.inl rfl
          · exact ih _ _ _
        · split
          · rename_i hf
            simp at hf
          · exact ih _ _ _

theorem traceShadow_values (cs as bs : Nat) (texC texA : Nat → Nat)
    (wc : Vec3F) (lf : Vec3F → Frac) (o d : Vec3F) :
    traceShadow cs as bs texC texA wc lf o d = (⟨3, 10⟩ : Frac) ∨
    traceShadow cs as bs texC texA wc lf o d = Frac.ofInt 1 :=
  traceShadowLoop_values cs as bs texC texA wc lf o d _ _ 64 _ _ HitResult.init

theorem safeComponent_clamped (d : Frac) (hd : 0 < d.den) :
    (safeComponent d).num ≠ 0 ∧
    (safeComponent d).fabs.bge ⟨1, 100000000⟩ = true := by
  unfold safeComponent
  split
  · split
    · exact ⟨by decide, by decide⟩
    · exact ⟨by decide, by decide⟩
  · rename_i hblt
    simp only [Frac.blt, Frac.fabs, decide_eq_true_eq] at hblt
    push_neg at hblt
    constructor
    · intro h0
      rw [h0] at hblt
      simp at hblt
      omega
    · simp only [Frac.bge, Frac.fabs, decide_eq_true_eq]
      exact hblt

/-- C9: bounded traversal and termination. All three traversal loops are
total functions of the model, each carrying its source loop budget as
structural fuel: `BRICK_SIZE * 3` iterations for the brick-local loop, 512
for the nearest-hit coarse loop (cut further by the `maxSteps` break), 64
for the any-hit shadow loop — so every ray query terminates for every
origin, direction and snapshot. Quantitatively: the step counter reported
by the nearest-hit query never exceeds `min 512 maxSteps`; the shadow query
always returns one of its two constants (`0.3` on a hit within budget, `1.0`
otherwise); and the direction safeguard applied before any reciprocal turns
any well-formed component into a nonzero value of magnitude at least
`1e-8`. -/
theorem claim_C9_bounded_traversal (cs as bs : Nat) (texC texA : Nat → Nat)
    (wc : Vec3F) (lf : Vec3F → Frac) (maxSteps : Nat) (o d : Vec3F)
    (f : Frac) (hf : 0 < f.den) :
    (traceRay cs as bs texC texA wc lf maxSteps o d).steps ≤ min 512 maxSteps ∧
    (traceShadow cs as bs texC texA wc lf o d = (⟨3, 10⟩ : Frac) ∨
      traceShadow cs as bs texC texA wc lf o d = Frac.ofInt 1) ∧
    (safeComponent f).num ≠ 0 ∧
    (safeComponent f).fabs.bge ⟨1, 100000000⟩ = true := by
  obtain ⟨h1, h2⟩ := safeComponent_clamped f hf
  exact ⟨traceRay_steps cs as bs texC texA wc lf maxSteps o d,
    traceShadow_values cs as bs texC texA wc lf o d, h1, h2⟩

/-- C9 witness: the bounds instantiated on an empty 1-cell world with a
straight-down ray, a budget of 4 steps, and the degenerate direction
component 0. -/
theorem claim_C9_witness :
    (0 : Nat) < (Frac.ofInt 0).den ∧
    ((traceRay 1 1 1 (fun _ => 0) (fun _ => 0) c5wc c5len 4 c5origin
        c5dir).steps ≤ min 512 4 ∧
      (traceShadow 1 1 1 (fun _ => 0) (fun _ => 0) c5wc c5len c5origin c5dir =
          (⟨3, 10⟩ : Frac) ∨
        traceShadow 1 1 1 (fun _ => 0) (fun _ => 0) c5wc c5len c5origin c5dir =
          Frac.ofInt 1) ∧
      (safeComponent (Frac.ofInt 0)).num ≠ 0 ∧
      (safeComponent (Frac.ofInt 0)).fabs.bge ⟨1, 100000000⟩ = true) :=
  ⟨by decide, claim_C9_bounded_traversal 1 1 1 (fun _ => 0) (fun _ => 0) c5wc
    c5len 4 c5origin c5dir (Frac.ofInt 0) (by decide)⟩

set_option maxHeartbeats 4000000 in
/-- C4: the traversal example. In the 16-voxel world (`coarseSize 2`,
`brickSize 8`) holding the single voxel `(5,5,5)` with color `(200,10,10)`,
synchronized by a full sync, the nearest-hit query from origin
`(5.5, 20, 5.5)` with direction `(0,-1,0)` (default water color, budget
256) reports a hit at position `(5,5,5)` with entry normal `(0,1,0)`, the
written color `(200,10,10,255)/255`, and distance `28/2`, exactly the
claimed `14` (from `y = 20` down to the voxel top face at `y = 6`, through
the `0.001` start bias and two coarse steps). -/
theorem claim_C4_traversal_example :
    traceRay 2 96 8 c4engine.texCoarse c4engine.texAtlas c4wc c5len 256
        c4origin c4dir =
      ⟨true, ⟨Frac.ofInt 5, Frac.ofInt 5, Frac.ofInt 5⟩,
       ⟨Frac.ofInt 0, Frac.ofInt 1, Frac.ofInt 0⟩,
       ⟨⟨200, 255⟩, ⟨10, 255⟩, ⟨10, 255⟩, ⟨255, 255⟩⟩,
       ⟨28, 2⟩, 2, false, Frac.ofInt 0⟩ ∧
    Frac.Eq (traceRay 2 96 8 c4engine.texCoarse c4engine.texAtlas c4wc c5len 256
        c4origin c4dir).distance (Frac.ofNat 14) := by
  have hup : ∀ e : Engine, e.uploadWorld.texAtlas = e.world.buildAtlas :=
    fun _ => rfl
  have hbr : w16written.bricks = [(1, c4brick)] := rfl
  have has : w16written.atlasSize = 96 := rfl
  have hbs : w16written.brickSize = 8 := rfl
  have hA1 : c4engine.texAtlas = w16written.buildAtlas := by
    show ({ Engine.create 2 8 96 with
        world := w16written } : Engine).uploadWorld.texAtlas =
      w16written.buildAtlas
    rw [hup]
  have hA2 : w16written.buildAtlas =
      copyBrickToAtlas 96 8 1 c4brick (fun _ => 0) := by
    show (w16written.bricks.foldl (fun ta p =>
        if p.1 > w16written.atlasSize * w16written.atlasSize * w16written.atlasSize
        then ta
        else copyBrickToAtlas w16written.atlasSize w16written.brickSize p.1 p.2 ta)
      (fun _ => 0)) = copyBrickToAtlas 96 8 1 c4brick (fun _ => 0)
    rw [hbr, has, hbs]
    simp only [List.foldl_cons, List.foldl_nil]
    rw [if_neg (by decide)]
  have hatlas : c4engine.texAtlas =
      copyBrickRegionFn 96 8 1 c4brick (fun _ => 0) :=
    (hA1.trans hA2).trans (copyBrickToAtlas_eq 96 8 1 c4brick (fun _ => 0)
      (by decide) (by decide) (by decide))
  rw [hatlas]
  exact ⟨by decide, by decide⟩
